import Mathlib

/-!
Verification model for the R.A.R.E. Award site's client-side form pipeline:
the storage adapter (`src/js/local-storage.js`), the validation engine
(`src/js/accessibility.js`), the multi-step form controller
(`src/js/form-handler.js`) and the serverless submission stub
(`src/functions/submit-nomination.js`).

JavaScript values handled by the storage adapter are modelled by the
inductive type `Json`.  Integral numbers are carried exactly as `Int`
(`jnum`; IEEE rounding of integer literals beyond 2^53 is not modelled);
a JSON number written with a fraction or an exponent part is carried as
`jdec m e`, denoting the exact decimal `m * 10 ^ e` (IEEE rounding of
such values is likewise not modelled, and the modelled encoder renders
them in exponent notation).  `undefined`, which `Storage.set` rejects
before touching any store, is outside the modelled domain, as are cyclic
structures, which cannot exist in an inductive type.  The platform
built-ins `JSON.stringify` / `JSON.parse` are modelled by the executable
functions `stringifyJson` / `parseJson`.  The encoder escapes `"`, `\`
and the control characters (the five short escapes plus `\u00XX`) the
way `JSON.stringify` does; the parser implements the full JSON grammar:
interstitial whitespace, the leading-zero rule for numbers, fraction and
exponent parts, the short escapes and `\uXXXX` escapes (combining
surrogate pairs; an escape denoting a lone surrogate is rejected, since
Lean strings carry Unicode scalar values only), and rejection of
unescaped control characters inside strings.  Object member lists are
kept as written; the real parser keeps the last of duplicate keys, which
no text the repository produces contains.
-/

/-- JSON-representable JavaScript values.  An integral number is carried
exactly in `jnum`; a number written with a fraction or exponent part is
carried as `jdec m e`, denoting the exact decimal `m * 10 ^ e`. -/
inductive Json where
  | jnull
  | jbool (b : Bool)
  | jnum (n : Int)
  | jdec (m : Int) (e : Int)
  | jstr (s : String)
  | jarr (elems : List Json)
  | jobj (members : List (String × Json))

/-- The character `{`, kept as a named constant. -/
def lbraceC : Char := Char.ofNat 123

/-- The character `}`, kept as a named constant. -/
def rbraceC : Char := Char.ofNat 125

/-- Decimal digit character for a digit value below ten. -/
def digitChar (d : Nat) : Char := Char.ofNat (48 + d)

/-- Decimal digits of a natural number, most significant first; the fuel
argument makes the recursion structural (`natDigits` supplies enough). -/
def natDigitsAux : Nat → Nat → List Char
  | 0, _ => []
  | fuel + 1, n =>
    if n < 10 then [digitChar n]
    else natDigitsAux fuel (n / 10) ++ [digitChar (n % 10)]

/-- Decimal digit characters of a natural number (the way a JavaScript
integer renders in a template literal or via `JSON.stringify`). -/
def natDigits (n : Nat) : List Char := natDigitsAux (n + 1) n

/-- Numeric value of a list of decimal digit characters. -/
def digitsVal (ds : List Char) : Nat :=
  ds.foldl (fun a c => 10 * a + (c.toNat - 48)) 0

/-- Rendering of an integer, as `JSON.stringify` renders integral numbers. -/
def encInt (n : Int) : List Char :=
  if n < 0 then '-' :: natDigits n.natAbs else natDigits n.toNat

/-- Lowercase hexadecimal digit character, as `JSON.stringify` emits in
`\u00XX` escapes. -/
def hexDigitChar (n : Nat) : Char :=
  if n < 10 then digitChar n else Char.ofNat (87 + n)

/-- String-content escaping exactly as `JSON.stringify`: `"` and `\` are
escaped, the control characters get their short escapes (`\b \t \n \f
\r`) or a `\u00XX` escape, every other character is carried verbatim. -/
def escChar (c : Char) : List Char :=
  if c = '\"' then ['\\', '\"']
  else if c = '\\' then ['\\', '\\']
  else if c = Char.ofNat 8 then ['\\', 'b']
  else if c = '\t' then ['\\', 't']
  else if c = '\n' then ['\\', 'n']
  else if c = Char.ofNat 12 then ['\\', 'f']
  else if c = '\r' then ['\\', 'r']
  else if c.toNat < 32 then
    ['\\', 'u', '0', '0', hexDigitChar (c.toNat / 16), hexDigitChar (c.toNat % 16)]
  else [c]

/-- Escape every character of a string body. -/
def escStr (cs : List Char) : List Char :=
  cs.foldr (fun c acc => escChar c ++ acc) []

mutual

/-- Modelled `JSON.stringify`, producing the character list of the
serialized text. -/
def encJson : Json → List Char
  | .jnull => ['n', 'u', 'l', 'l']
  | .jbool true => ['t', 'r', 'u', 'e']
  | .jbool false => ['f', 'a', 'l', 's', 'e']
  | .jnum n => encInt n
  | .jdec m e => encInt m ++ 'e' :: encInt e
  | .jstr s => '\"' :: (escStr s.data ++ ['\"'])
  | .jarr xs => '[' :: (encItemsSep xs ++ [']'])
  | .jobj kvs => lbraceC :: (encMembersSep kvs ++ [rbraceC])

/-- Comma-separated encodings of array elements. -/
def encItemsSep : List Json → List Char
  | [] => []
  | [x] => encJson x
  | x :: y :: xs => encJson x ++ ',' :: encItemsSep (y :: xs)

/-- Comma-separated encodings of object members. -/
def encMembersSep : List (String × Json) → List Char
  | [] => []
  | [kv] => encMember kv
  | kv :: kv2 :: kvs => encMember kv ++ ',' :: encMembersSep (kv2 :: kvs)

/-- Encoding of a single object member: quoted key, colon, value. -/
def encMember : String × Json → List Char
  | (k, v) => '\"' :: (escStr k.data ++ ['\"']) ++ ':' :: encJson v

end

/-- Modelled `JSON.stringify` as a string-valued function. -/
def stringifyJson (v : Json) : String := String.mk (encJson v)

/-- Read a maximal run of decimal digit characters. -/
def readDigits : List Char → List Char × List Char
  | [] => ([], [])
  | c :: cs =>
    if c.isDigit then
      let p := readDigits cs
      (c :: p.1, p.2)
    else ([], c :: cs)

/-- Meaning of a single-character JSON escape sequence (after `\`);
`\uXXXX` escapes are handled separately by `decodeU`. -/
def unescapeChar (e : Char) : Option Char :=
  if e = '\"' then some '\"'
  else if e = '\\' then some '\\'
  else if e = '/' then some '/'
  else if e = 'n' then some '\n'
  else if e = 't' then some '\t'
  else if e = 'r' then some '\r'
  else if e = 'b' then some (Char.ofNat 8)
  else if e = 'f' then some (Char.ofNat 12)
  else none

/-- Numeric value of a hexadecimal digit character, either case. -/
def hexVal (c : Char) : Option Nat :=
  if c.isDigit then some (c.toNat - 48)
  else if 97 ≤ c.toNat ∧ c.toNat ≤ 102 then some (c.toNat - 87)
  else if 65 ≤ c.toNat ∧ c.toNat ≤ 70 then some (c.toNat - 55)
  else none

/-- Continue a `\uXXXX` escape whose value `v` landed in the surrogate
range: a high surrogate must be followed by a `\uXXXX` low surrogate,
combining into one scalar; anything else (including a lone surrogate,
which Lean strings cannot carry) is rejected. -/
def decodeUPair (v : Nat) : List Char → Option (Char × List Char)
  | b1 :: b2 :: k1 :: k2 :: k3 :: k4 :: cs4 =>
    if v < 56320 ∧ b1 = '\\' ∧ b2 = 'u' then
      match hexVal k1, hexVal k2, hexVal k3, hexVal k4 with
      | some w1, some w2, some w3, some w4 =>
        if 56320 ≤ ((w1 * 16 + w2) * 16 + w3) * 16 + w4
            ∧ ((w1 * 16 + w2) * 16 + w3) * 16 + w4 < 57344 then
          some (Char.ofNat (65536 + (v - 55296) * 1024
              + (((w1 * 16 + w2) * 16 + w3) * 16 + w4 - 56320)), cs4)
        else none
      | _, _, _, _ => none
    else none
  | _ => none

/-- Decode a `\uXXXX` escape given the four hex digits and what follows
them, combining a high surrogate with a following `\uXXXX` low surrogate
into one scalar; `none` for bad hex digits or a lone surrogate (the real
parser admits lone surrogates, which Lean strings cannot carry).
Returns the decoded character and the remaining input. -/
def decodeU : List Char → Option (Char × List Char)
  | h1 :: h2 :: h3 :: h4 :: cs3 =>
    (match hexVal h1, hexVal h2, hexVal h3, hexVal h4 with
     | some v1, some v2, some v3, some v4 =>
       if ((v1 * 16 + v2) * 16 + v3) * 16 + v4 < 55296
           ∨ 57344 ≤ ((v1 * 16 + v2) * 16 + v3) * 16 + v4 then
         some (Char.ofNat (((v1 * 16 + v2) * 16 + v3) * 16 + v4), cs3)
       else decodeUPair (((v1 * 16 + v2) * 16 + v3) * 16 + v4) cs3
     | _, _, _, _ => none)
  | _ => none

/-- Read a JSON string body up to its closing quote: short escapes,
`\uXXXX` escapes via `decodeU`, rejection of unescaped control
characters.  The fuel keeps the recursion structural; every call
consumes input, so callers pass `input.length + 1`. -/
def readString : Nat → List Char → Option (List Char × List Char)
  | 0, _ => none
  | _ + 1, [] => none
  | fuel + 1, c :: cs =>
    if c = '\"' then some ([], cs)
    else if c = '\\' then
      match cs with
      | [] => none
      | e :: cs2 =>
        if e = 'u' then
          match decodeU cs2 with
          | some (u, cs3) =>
            (match readString fuel cs3 with
             | some (s, r) => some (u :: s, r)
             | none => none)
          | none => none
        else
          match unescapeChar e, readString fuel cs2 with
          | some u, some (s, r) => some (u :: s, r)
          | _, _ => none
    else if c.toNat < 32 then none
    else
      match readString fuel cs with
      | some (s, r) => some (c :: s, r)
      | none => none

/-- The four JSON whitespace characters (`JSON.parse` accepts no
others). -/
def isJsonWs (c : Char) : Bool :=
  c == ' ' || c == '\t' || c == '\n' || c == '\r'

/-- Skip JSON whitespace. -/
def skipWs : List Char → List Char
  | [] => []
  | c :: cs => if isJsonWs c then skipWs cs else c :: cs

/-- The leading-zero rule of JSON's integer part: a run of more than one
digit must not start with `0`. -/
def leadingOk : List Char → Bool
  | [] => true
  | c :: t => !(c == '0') || t.isEmpty

/-- Signed numeric value of a digit run. -/
def signedVal (neg : Bool) (ds : List Char) : Int :=
  if neg then -(digitsVal ds : Int) else (digitsVal ds : Int)

/-- Exponent part of a JSON number, right after `e`/`E`: an optional
sign and one or more digits (leading zeros are allowed here). -/
def readExpPart : List Char → Option (Int × List Char)
  | [] => none
  | c :: r =>
    if c = '+' then
      match readDigits r with
      | ([], _) => none
      | (ds, r2) => some ((digitsVal ds : Int), r2)
    else if c = '-' then
      match readDigits r with
      | ([], _) => none
      | (ds, r2) => some (-(digitsVal ds : Int), r2)
    else
      match readDigits (c :: r) with
      | ([], _) => none
      | (ds, r2) => some ((digitsVal ds : Int), r2)

/-- Continue a number after its integer part `ds` and fraction digits
`fs`: an optional exponent part; the value is the exact decimal. -/
def numAfterFrac (neg : Bool) (ds fs r2 : List Char) : Option (Json × List Char) :=
  match r2 with
  | [] => some (.jdec (signedVal neg (ds ++ fs)) (-(fs.length : Int)), [])
  | c2 :: r3 =>
    if c2 = 'e' ∨ c2 = 'E' then
      match readExpPart r3 with
      | some (ex, r4) => some (.jdec (signedVal neg (ds ++ fs)) (ex - (fs.length : Int)), r4)
      | none => none
    else some (.jdec (signedVal neg (ds ++ fs)) (-(fs.length : Int)), c2 :: r3)

/-- Continue a number after its integer part: an optional fraction
(`.` plus one or more digits) and an optional exponent.  A plain integer
yields `jnum`, a fraction or exponent part yields `jdec`. -/
def numAfterInt (neg : Bool) (ds r : List Char) : Option (Json × List Char) :=
  match r with
  | [] => some (.jnum (signedVal neg ds), [])
  | c :: r1 =>
    if c = '.' then
      match readDigits r1 with
      | ([], _) => none
      | (fs, r2) => numAfterFrac neg ds fs r2
    else if c = 'e' ∨ c = 'E' then
      match readExpPart r1 with
      | some (ex, r4) => some (.jdec (signedVal neg ds) ex, r4)
      | none => none
    else some (.jnum (signedVal neg ds), c :: r1)

/-- Parse a JSON number after an optional leading minus: integer part
subject to the leading-zero rule, optional fraction, optional
exponent. -/
def parseNumber (neg : Bool) (cs : List Char) : Option (Json × List Char) :=
  match readDigits cs with
  | ([], _) => none
  | (ds, r) => if leadingOk ds then numAfterInt neg ds r else none

mutual

/-- Modelled `JSON.parse` worker: parse one JSON value from the front of
the input.  The fuel argument only bounds the nesting recursion; the
top-level wrapper `parseJson` supplies enough fuel for any input. -/
def parseValue : Nat → List Char → Option (Json × List Char)
  | 0, _ => none
  | fuel + 1, cs0 =>
    match skipWs cs0 with
    | [] => none
    | c :: rest =>
      if c = 'n' then
        match rest with
        | 'u' :: 'l' :: 'l' :: r => some (.jnull, r)
        | _ => none
      else if c = 't' then
        match rest with
        | 'r' :: 'u' :: 'e' :: r => some (.jbool true, r)
        | _ => none
      else if c = 'f' then
        match rest with
        | 'a' :: 'l' :: 's' :: 'e' :: r => some (.jbool false, r)
        | _ => none
      else if c = '-' then parseNumber true rest
      else if c.isDigit then parseNumber false (c :: rest)
      else if c = '\"' then
        match readString (rest.length + 1) rest with
        | some (s, r) => some (.jstr (String.mk s), r)
        | none => none
      else if c = '[' then
        match skipWs rest with
        | [] => none
        | c2 :: r2 =>
          if c2 = ']' then some (.jarr [], r2)
          else
            match parseItems fuel (c2 :: r2) with
            | some (xs, r) => some (.jarr xs, r)
            | none => none
      else if c = lbraceC then
        match skipWs rest with
        | [] => none
        | c2 :: r2 =>
          if c2 = rbraceC then some (.jobj [], r2)
          else
            match parseMembers fuel (c2 :: r2) with
            | some (kvs, r) => some (.jobj kvs, r)
            | none => none
      else none

/-- Parse the elements of a non-empty array, up to the closing bracket. -/
def parseItems : Nat → List Char → Option (List Json × List Char)
  | 0, _ => none
  | fuel + 1, cs =>
    match parseValue fuel cs with
    | none => none
    | some (v, r) =>
      match skipWs r with
      | [] => none
      | c :: r2 =>
        if c = ',' then
          match parseItems fuel r2 with
          | some (vs, r3) => some (v :: vs, r3)
          | none => none
        else if c = ']' then some ([v], r2)
        else none

/-- Parse the members of a non-empty object, up to the closing brace. -/
def parseMembers : Nat → List Char → Option (List (String × Json) × List Char)
  | 0, _ => none
  | fuel + 1, cs0 =>
    match skipWs cs0 with
    | [] => none
    | c :: rest =>
      if c = '\"' then
        match readString (rest.length + 1) rest with
        | none => none
        | some (kcs, r) =>
          match skipWs r with
          | [] => none
          | c2 :: r2 =>
            if c2 = ':' then
              match parseValue fuel r2 with
              | none => none
              | some (v, r3) =>
                match skipWs r3 with
                | [] => none
                | c3 :: r4 =>
                  if c3 = ',' then
                    match parseMembers fuel r4 with
                    | some (kvs, r5) => some ((String.mk kcs, v) :: kvs, r5)
                    | none => none
                  else if c3 = rbraceC then some ([(String.mk kcs, v)], r4)
                  else none
            else none
      else none

end

/-- Modelled `JSON.parse`: succeeds exactly when the whole input is one
JSON value surrounded by optional whitespace, otherwise `none` (the real
built-in throws). -/
def parseJson (s : String) : Option Json :=
  match parseValue (s.length + 1) s.data with
  | some (v, r) => if skipWs r = [] then some v else none
  | none => none

mutual

/-- Fuel measure of a JSON value: enough `parseValue` fuel to parse its
encoding. -/
def szJson : Json → Nat
  | .jnull => 1
  | .jbool _ => 1
  | .jnum _ => 1
  | .jdec _ _ => 1
  | .jstr _ => 1
  | .jarr xs => 1 + szItems xs
  | .jobj kvs => 1 + szMembers kvs

/-- Fuel measure of an array's elements. -/
def szItems : List Json → Nat
  | [] => 0
  | x :: xs => 1 + szJson x + szItems xs

/-- Fuel measure of an object's members. -/
def szMembers : List (String × Json) → Nat
  | [] => 0
  | (_, v) :: kvs => 1 + szJson v + szMembers kvs

end

/-- Whether the input does not start with a decimal digit (the condition
under which a digit run is not extended by what follows). -/
def noDigitHead : List Char → Bool
  | [] => true
  | c :: _ => !c.isDigit

/-- Whether the input cannot extend a preceding number literal (no
digit, no fraction dot, no exponent letter at its head). -/
def numTailOk : List Char → Bool
  | [] => true
  | c :: _ => !(c.isDigit || c == '.' || c == 'e' || c == 'E')

/-- Delimiter condition for the round-trip statement: only a number
encoding imposes a constraint on what may follow it. -/
def numDelimOk : Json → List Char → Prop
  | .jnum _, rest => numTailOk rest = true
  | .jdec _ _, rest => numTailOk rest = true
  | _, _ => True

/-!
Storage adapter (`src/js/local-storage.js`).

A scope (persistent/localStorage or session/sessionStorage) is modelled by
`ScopeStore`: the availability mode determined at initialization, the
native backing store, and the in-memory fallback object for that scope.
Native storage calls can throw; a call that throws is modelled by an
`Option`-valued helper returning `none` (the adapter catches every such
exception).  `NativeMode.throwing` models the spec scenario in which every
native storage call fails; in that mode `Storage.set`'s quota-recovery
path (`_handleQuotaExceeded`) also throws on its first native access and
is caught, so it is modelled as part of the same `none` result.
-/

/-- Availability of a native storage scope. -/
inductive NativeMode where
  | working
  | throwing
  | unavailable
deriving DecidableEq

/-- A key-value mapping with string keys and string values. -/
abbrev KVMap := List (String × String)

/-- Set a key in a mapping, overwriting an existing entry in place. -/
def setAssoc : KVMap → String → String → KVMap
  | [], k, v => [(k, v)]
  | (k1, v1) :: rest, k, v =>
    if k1 = k then (k, v) :: rest else (k1, v1) :: setAssoc rest k v

/-- Look a key up in a mapping. -/
def lookupAssoc : KVMap → String → Option String
  | [], _ => none
  | (k1, v1) :: rest, k => if k1 = k then some v1 else lookupAssoc rest k

/-- Delete a key from a mapping. -/
def delAssoc (m : KVMap) (k : String) : KVMap :=
  m.filter (fun p => !(p.1 == k))

/-- One storage scope of the adapter. -/
structure ScopeStore where
  mode : NativeMode
  native : KVMap
  mem : KVMap
deriving DecidableEq

/-- Native `setItem`; `none` models a thrown exception (including the
failure of the quota-recovery retries) or an unavailable store. -/
def trySetItem (mode : NativeMode) (m : KVMap) (k v : String) : Option KVMap :=
  match mode with
  | .working => some (setAssoc m k v)
  | .throwing => none
  | .unavailable => none

/-- Native `getItem`; the inner `Option` is the JavaScript `null` result. -/
def tryGetItem (mode : NativeMode) (m : KVMap) (k : String) : Option (Option String) :=
  match mode with
  | .working => some (lookupAssoc m k)
  | .throwing => none
  | .unavailable => none

/-- Native `removeItem`. -/
def tryRemoveItem (mode : NativeMode) (m : KVMap) (k : String) : Option KVMap :=
  match mode with
  | .working => some (delAssoc m k)
  | .throwing => none
  | .unavailable => none

/-- Native `clear`. -/
def tryClearItems (mode : NativeMode) : Option KVMap :=
  match mode with
  | .working => some []
  | .throwing => none
  | .unavailable => none

/-- Native key iteration (`storage.length` / `storage.key(i)`). -/
def tryNativeKeys (mode : NativeMode) (m : KVMap) : Option (List String) :=
  match mode with
  | .working => some (m.map Prod.fst)
  | .throwing => none
  | .unavailable => none

/-- The adapter's `safeStringify`: strings pass through, everything else
is JSON-encoded.  (`undefined`, which makes it return `undefined`, and
values that make `JSON.stringify` throw are outside the modelled domain.) -/
def safeStringify (v : Json) : String :=
  match v with
  | .jstr s => s
  | _ => stringifyJson v

/-- The adapter's `safeParse` on a non-null stored text: the JSON decoding
when the text parses, otherwise the raw text itself. -/
def safeParse (s : String) : Json :=
  match parseJson s with
  | some j => j
  | none => .jstr s

/-- The adapter's `set`: reject an empty key, serialize, try native
storage, fall back to the in-memory mapping on failure.  Returns the
success flag and the updated scope. -/
def Storage.set (st : ScopeStore) (key : String) (value : Json) : Bool × ScopeStore :=
  if key = "" then (false, st)
  else
    let stringValue := safeStringify value
    match trySetItem st.mode st.native key stringValue with
    | some native1 => (true, { st with native := native1 })
    | none => (true, { st with mem := setAssoc st.mem key stringValue })

/-- The adapter's `get`: `null` (modelled `Json.jnull`) on an invalid or
missing key, otherwise the parsed stored text, falling back to the
in-memory mapping when native storage is unavailable or throws. -/
def Storage.get (st : ScopeStore) (key : String) : Json :=
  if key = "" then .jnull
  else
    match tryGetItem st.mode st.native key with
    | some (some s) => safeParse s
    | some none => .jnull
    | none =>
      match lookupAssoc st.mem key with
      | some s => safeParse s
      | none => .jnull

/-- The adapter's `remove`: removes from native storage (ignoring a
throw) and always from the in-memory mapping; returns `true`. -/
def Storage.remove (st : ScopeStore) (key : String) : Bool × ScopeStore :=
  if key = "" then (false, st)
  else
    let native1 :=
      match tryRemoveItem st.mode st.native key with
      | some m => m
      | none => st.native
    (true, { st with native := native1, mem := delAssoc st.mem key })

/-- The adapter's `clear`: clears native storage (ignoring a throw) and
always the in-memory mapping; returns `true`. -/
def Storage.clear (st : ScopeStore) : Bool × ScopeStore :=
  let native1 :=
    match tryClearItems st.mode with
    | some m => m
    | none => st.native
  (true, { st with native := native1, mem := [] })

/-- The adapter's `has`. -/
def Storage.has (st : ScopeStore) (key : String) : Bool :=
  if key = "" then false
  else
    match tryGetItem st.mode st.native key with
    | some r => !r.isNone
    | none => (lookupAssoc st.mem key).isSome

/-- The adapter's `keys`. -/
def Storage.keys (st : ScopeStore) : List String :=
  match tryNativeKeys st.mode st.native with
  | some ks => ks
  | none => st.mem.map Prod.fst

/-- The adapter's `size`: two bytes per character of every key and every
re-serialized stored value, skipping entries whose serialization is the
empty string (falsy in the JavaScript guard). -/
def Storage.size (st : ScopeStore) : Nat :=
  (Storage.keys st).foldl
    (fun acc k =>
      let sv := safeStringify (Storage.get st k)
      if sv = "" then acc else acc + k.length * 2 + sv.length * 2)
    0

/-- Both scopes of the adapter; `isSession` selects between them exactly
as `getStorage` / `getMemoryStorage` do. -/
structure StorageState where
  locScope : ScopeStore
  sesScope : ScopeStore
deriving DecidableEq

/-- Scope selection on reads. -/
def getScope (st : StorageState) (isSession : Bool) : ScopeStore :=
  if isSession then st.sesScope else st.locScope

/-- Scope selection on writes. -/
def putScope (st : StorageState) (isSession : Bool) (sc : ScopeStore) : StorageState :=
  if isSession then { st with sesScope := sc } else { st with locScope := sc }

/-- `Storage.set` with the scope argument. -/
def Storage.setK (st : StorageState) (key : String) (value : Json) (isSession : Bool) :
    Bool × StorageState :=
  let r := Storage.set (getScope st isSession) key value
  (r.1, putScope st isSession r.2)

/-- `Storage.get` with the scope argument. -/
def Storage.getK (st : StorageState) (key : String) (isSession : Bool) : Json :=
  Storage.get (getScope st isSession) key

/-!
Validation engine (`src/js/accessibility.js`).

Field values are modelled as strings (text inputs, the case every claim
exercises).  Of the rule kinds the engine extracts, `required`,
`minLength` and `maxLength` are modelled; the remaining kinds (email,
phone, pattern, and the named custom validators) are not referenced by
any claim and are omitted from the embedding.  `value.trim()` is modelled
by the executable `jsTrim`.
-/

/-- Whitespace trimming as JavaScript's `String.prototype.trim`. -/
def trimChars (cs : List Char) : List Char :=
  ((cs.dropWhile Char.isWhitespace).reverse.dropWhile Char.isWhitespace).reverse

/-- String-valued `trim`. -/
def jsTrim (s : String) : String := String.mk (trimChars s.data)

/-- Validation rule kinds referenced by the claims. -/
inductive VRule where
  | required
  | minLength (n : Nat)
  | maxLength (n : Nat)
deriving DecidableEq

/-- Evaluation of one rule on a string field value, following the
`validators` object: `required` trims and compares with the empty string;
`minLength` / `maxLength` accept the empty (falsy) value and otherwise
compare the trimmed length with the bound. -/
def ruleOk : VRule → String → Bool
  | .required, v => !(jsTrim v == "")
  | .minLength n, v => if v == "" then true else decide (n ≤ (jsTrim v).length)
  | .maxLength n, v => if v == "" then true else decide ((jsTrim v).length ≤ n)

/-- The engine's `validateField` verdict: a field is valid iff every
extracted rule passes. -/
def validateFieldB (rules : List VRule) (value : String) : Bool :=
  rules.all (fun r => ruleOk r value)

/-- Declarative attributes from which rules are extracted (the attribute
values after `parseInt`). -/
structure FieldAttrs where
  requiredAttr : Bool
  minlengthAttr : Option Nat
  maxlengthAttr : Option Nat
deriving DecidableEq

/-- Rule extraction (`extractValidationRules`), in the code's order. -/
def extractValidationRules (a : FieldAttrs) : List VRule :=
  (if a.requiredAttr then [VRule.required] else [])
    ++ (match a.minlengthAttr with
        | some n => [VRule.minLength n]
        | none => [])
    ++ (match a.maxlengthAttr with
        | some n => [VRule.maxLength n]
        | none => [])

/-- The engine's `hasRequiredRule`. -/
def hasRequiredRule (rules : List VRule) : Bool :=
  rules.any (fun r => match r with | .required => true | _ => false)

/-- Stored per-field state: extracted rules, current value, and the
validity flag maintained by `validateField`. -/
structure FieldSt where
  rules : List VRule
  value : String
  isValid : Bool
deriving DecidableEq

/-- JavaScript's `Math.round` on an exact rational (round half up). -/
def jsRound (q : ℚ) : ℤ := ⌊q + 1 / 2⌋

/-- The form's required fields (`updateFormCompletion`). -/
def requiredFieldsOf (fields : List FieldSt) : List FieldSt :=
  fields.filter (fun f => hasRequiredRule f.rules)

/-- The valid required fields (`updateFormCompletion`). -/
def validRequiredOf (fields : List FieldSt) : List FieldSt :=
  (requiredFieldsOf fields).filter (fun f => f.isValid)

/-- Completion percentage computed by `updateFormCompletion`. -/
def formCompletion (fields : List FieldSt) : ℤ :=
  let r := (requiredFieldsOf fields).length
  let v := (validRequiredOf fields).length
  if r > 0 then jsRound ((v : ℚ) / (r : ℚ) * 100) else 100

/-- `formState.isValid`: every required field is valid. -/
def formIsValidB (fields : List FieldSt) : Bool :=
  (requiredFieldsOf fields).all (fun f => f.isValid)

/-- The submit control's `disabled` flag set by `updateFormCompletion`. -/
def submitDisabled (fields : List FieldSt) : Bool :=
  !(formIsValidB fields)

/-- Completion percentage as the specification words it: valid required
fields over total required fields, rounded, with 100 for no required
fields.  Kept separate from `formCompletion` to state the refinement. -/
def specCompletionPct (validCount reqCount : Nat) : ℤ :=
  if reqCount = 0 then 100
  else jsRound ((validCount : ℚ) / (reqCount : ℚ) * 100)

/-- A concrete form with 201 required fields of which exactly one (the
last) is empty and invalid; every validity flag agrees with
`validateField`. -/
def c3Fields : List FieldSt :=
  List.replicate 200 ⟨[VRule.required], "x", true⟩ ++ [⟨[VRule.required], "", false⟩]

/-!
Form/step controller (`src/js/form-handler.js`).

Only the state the claims concern is modelled: the current step, the
total step count, the collected form-data aggregate and the current draft
id.  DOM reads performed by `saveStepData` are passed in as the
`domFields` argument; DOM writes (classes, ARIA attributes, focus) have
no bearing on any claim and are dropped.
-/

/-- Controller state (`state` in `form-handler.js`). -/
structure FormState where
  currentStep : Int
  totalSteps : Int
  formData : KVMap
  currentDraftId : Option String
deriving DecidableEq

/-- `showStep`: ignores a step number outside `[1, totalSteps]`,
otherwise makes it current. -/
def showStep (st : FormState) (stepNumber : Int) : FormState :=
  if stepNumber < 1 ∨ stepNumber > st.totalSteps then st
  else { st with currentStep := stepNumber }

/-- `saveStepData`: merge the current step's field values into the
aggregate (text-field behavior; the auto-save scheduling side effect has
no bearing on the step claims). -/
def saveStepData (domFields : KVMap) (st : FormState) : FormState :=
  { st with formData := domFields.foldl (fun m p => setAssoc m p.1 p.2) st.formData }

/-- `goToStep`: range-checked jump that saves step data first. -/
def goToStep (domFields : KVMap) (st : FormState) (stepNumber : Int) : FormState :=
  if 1 ≤ stepNumber ∧ stepNumber ≤ st.totalSteps then
    showStep (saveStepData domFields st) stepNumber
  else st

/-- Whether the step indicator for `stepNum` carries the `completed`
class: `updateStepIndicators` marks exactly the steps strictly below the
current one. -/
def stepIndicatorCompleted (st : FormState) (stepNum : Int) : Bool :=
  stepNum < st.currentStep

/-- The jump transition wired to a step-indicator click in
`initMultiStepForm`: gated on the indicator's `completed` class, then
`goToStep`. -/
def jumpToStep (domFields : KVMap) (st : FormState) (stepNum : Int) : FormState :=
  if stepIndicatorCompleted st stepNum then goToStep domFields st stepNum else st

/-- The highest completed step as marked by the indicators: the step just
below the current one. -/
def highestCompletedStep (st : FormState) : Int := st.currentStep - 1

/-- `handleNext`: gated by validation of the current step; on the last
step it triggers submission (modelled elsewhere) instead of advancing. -/
def handleNextStep (domFields : KVMap) (stepValid : Bool) (st : FormState) : FormState :=
  if !stepValid then st
  else
    let st1 := saveStepData domFields st
    if st1.currentStep < st1.totalSteps then showStep st1 (st1.currentStep + 1) else st1

/-- `handlePrev`: ungated move back, never below step 1. -/
def handlePrevStep (domFields : KVMap) (st : FormState) : FormState :=
  let st1 := saveStepData domFields st
  if st1.currentStep > 1 then showStep st1 (st1.currentStep - 1) else st1

/-- `clearFormData`: resets the aggregate, the step and the draft id. -/
def clearFormData (st : FormState) : FormState :=
  { st with formData := [], currentStep := 1, currentDraftId := none }

/-- An autosave snapshot (`{formData, currentStep, timestamp, draftId}`;
the timestamp plays no role in any claim). -/
structure AutoSaveData where
  formData : KVMap
  currentStep : Int
  draftId : Option String
deriving DecidableEq

/-- `loadAutoSave` on a present snapshot with non-empty `formData`:
restore the aggregate and draft id, then `showStep` when the saved step
is truthy (non-zero). -/
def loadAutoSaveStep (saved : AutoSaveData) (st : FormState) : FormState :=
  let st1 := { st with formData := saved.formData, currentDraftId := saved.draftId }
  if saved.currentStep ≠ 0 then showStep st1 saved.currentStep else st1

/-- A named draft record. -/
structure Draft where
  id : String
  name : String
  formData : KVMap
  currentStep : Int
  createdAt : String
deriving DecidableEq

/-- `loadDraft`: find the draft by id, restore its data, and show its
saved step (`draft.currentStep || 1`: a falsy zero becomes 1). -/
def loadDraftStep (drafts : List Draft) (draftId : String) (st : FormState) : FormState :=
  match drafts.find? (fun d => d.id == draftId) with
  | some draft =>
    let st1 := { st with formData := draft.formData, currentDraftId := some draft.id }
    showStep st1 (if draft.currentStep = 0 then 1 else draft.currentStep)
  | none => st

/-- The controller's initial state (`state.currentStep` starts at 1). -/
def initialFormState (total : Int) : FormState :=
  { currentStep := 1, totalSteps := total, formData := [], currentDraftId := none }

/-- The step-index invariant: the current step lies in `[1, totalSteps]`. -/
def stepInRange (st : FormState) : Prop :=
  1 ≤ st.currentStep ∧ st.currentStep ≤ st.totalSteps

/-!
Submission flow (`form-handler.js`: `handleSubmit`, `submitForm`,
`simulateSubmission`, `handleSubmitSuccess`, `handleSubmitError`,
`clearAutoSave`, `clearFormData`, and the CONFIG constants).
-/

/-- `CONFIG.autoSaveKey`. -/
def autoSaveKey : String := "rare_form_autosave"

/-- The autosave entry's storage key (`CONFIG.autoSaveKey + "_current"`). -/
def autoSaveCurrentKey : String := autoSaveKey ++ "_current"

/-- `CONFIG.draftsKey`. -/
def draftsKey : String := "rare_form_drafts"

/-- `CONFIG.maxDrafts`. -/
def maxDrafts : Nat := 5

/-- `CONFIG.successRedirect`. -/
def successRedirect : String := "success.html"

/-- The session key under which the reference number is stored. -/
def submissionRefKey : String := "rare_submission_ref"

/-- Substring test on character lists (JavaScript `String.includes`). -/
def containsSub (s sub : List Char) : Bool :=
  if sub.isPrefixOf s then true
  else
    match s with
    | [] => false
    | _ :: t => containsSub t sub

/-- JavaScript `String.includes`. -/
def strIncludes (s sub : String) : Bool := containsSub s.data sub.data

/-- A parsed submission response body (`{success, referenceNumber,
message, error}`). -/
structure SubmitResponse where
  success : Bool
  referenceNumber : Option String
  message : Option String
  errMsg : Option String
deriving DecidableEq

/-- A thrown JavaScript error, by name and message. -/
structure ThrownError where
  name : String
  message : String
deriving DecidableEq

/-- Outcome of the single `fetch` call made by `submitForm`. -/
inductive FetchOutcome where
  | ok (resp : SubmitResponse)
  | httpNotOk (status : Nat)
  | netError (e : ThrownError)
  | timedOut
deriving DecidableEq

/-- Message carried by the abort exception raised when the submission
timeout fires. -/
def abortErrorMessage : String := "The operation was aborted."

/-- `simulateSubmission`, resolved: the demo fallback resolves a success
response with a generated reference 90% of the time, otherwise a failure
body; the random draw and the generated reference are parameters. -/
def simulateSubmission (succeeded : Bool) (ref : String) : SubmitResponse :=
  if succeeded then
    { success := true, referenceNumber := some ref,
      message := some "Nomination submitted successfully", errMsg := none }
  else
    { success := false, referenceNumber := none,
      message := none, errMsg := some "Simulated error for testing" }

/-- `submitForm`: one fetch; a non-ok response raises an HTTP error that
is rethrown; a caught error of `TypeError` kind or whose message mentions
`fetch` triggers the demo `simulateSubmission` fallback; anything else is
rethrown (in particular the abort raised by the timeout). -/
def submitFormModel (fetched : FetchOutcome) (simOk : Bool) (simRef : String) :
    Except ThrownError SubmitResponse :=
  match fetched with
  | .ok resp => .ok resp
  | .httpNotOk status =>
    let e : ThrownError :=
      { name := "Error", message := "HTTP error! status: " ++ String.mk (natDigits status) }
    if e.name == "TypeError" || strIncludes e.message "fetch" then
      .ok (simulateSubmission simOk simRef)
    else .error e
  | .netError e =>
    if e.name == "TypeError" || strIncludes e.message "fetch" then
      .ok (simulateSubmission simOk simRef)
    else .error e
  | .timedOut =>
    let e : ThrownError := { name := "AbortError", message := abortErrorMessage }
    if e.name == "TypeError" || strIncludes e.message "fetch" then
      .ok (simulateSubmission simOk simRef)
    else .error e

/-- Submission-relevant state: the controller state, the persistent
storage scope used through the adapter, and the native session store
written directly by `handleSubmitSuccess`. -/
structure SubmitCtx where
  form : FormState
  store : ScopeStore
  sessionNative : KVMap
deriving DecidableEq

/-- Observable side effects of one submission attempt. -/
structure SubmitEffects where
  errorShown : Option String
  successShown : Option String
  redirectTo : Option String
  confettiFired : Bool
  fetchAttempts : Nat
deriving DecidableEq

/-- `clearAutoSave`: remove the autosave entry and forget the draft id. -/
def clearAutoSave (ctx : SubmitCtx) : SubmitCtx :=
  { ctx with
    store := (Storage.remove ctx.store autoSaveCurrentKey).2,
    form := { ctx.form with currentDraftId := none } }

/-- `handleSubmitSuccess`: clear autosave and the aggregate, store the
reference (when present) in native session storage, fire the optional
confetti, and schedule the redirect. -/
def handleSubmitSuccess (confettiAvailable : Bool) (ctx : SubmitCtx) (resp : SubmitResponse) :
    SubmitCtx × SubmitEffects :=
  let ctx1 := clearAutoSave ctx
  let ctx2 := { ctx1 with form := clearFormData ctx1.form }
  let ctx3 :=
    match resp.referenceNumber with
    | some ref => { ctx2 with sessionNative := setAssoc ctx2.sessionNative submissionRefKey ref }
    | none => ctx2
  (ctx3,
    { errorShown := none,
      successShown := some (match resp.message with
        | some m => m
        | none => "Form submitted successfully"),
      redirectTo := some successRedirect,
      confettiFired := confettiAvailable,
      fetchAttempts := 1 })

/-- `handleSubmitError`: show the message, leave all state untouched. -/
def handleSubmitError (ctx : SubmitCtx) (msg : String) : SubmitCtx × SubmitEffects :=
  (ctx,
    { errorShown := some msg, successShown := none, redirectTo := none,
      confettiFired := false, fetchAttempts := 1 })

/-- `handleSubmit` after the in-flight guard: validate everything, issue
the single submission, and dispatch on the response (`error.message ||
'Network error occurred'` and `response.error || 'Submission failed'`
model the JavaScript falsy defaults). -/
def handleSubmit (confettiAvailable allValid : Bool) (ctx : SubmitCtx)
    (fetched : FetchOutcome) (simOk : Bool) (simRef : String) : SubmitCtx × SubmitEffects :=
  if !allValid then
    (ctx,
      { errorShown := some "Please complete all required fields", successShown := none,
        redirectTo := none, confettiFired := false, fetchAttempts := 0 })
  else
    match submitFormModel fetched simOk simRef with
    | .ok resp =>
      if resp.success then handleSubmitSuccess confettiAvailable ctx resp
      else
        handleSubmitError ctx
          (match resp.errMsg with
           | some m => if m = "" then "Submission failed" else m
           | none => "Submission failed")
    | .error e =>
      handleSubmitError ctx (if e.message = "" then "Network error occurred" else e.message)

/-- Fetch outcomes that reach `handleSubmitError` rather than the demo
fallback: a response body without a success indication, an HTTP error
status, the abort raised by the submission timeout, and any thrown error
that is neither a `TypeError` nor mentions `fetch`. -/
def failsNoFallback : FetchOutcome → Bool
  | .ok resp => !resp.success
  | .httpNotOk _ => true
  | .timedOut => true
  | .netError e => !(e.name == "TypeError" || strIncludes e.message "fetch")

/-!
Draft management (`saveDraft` in `form-handler.js`), operating on the
stored draft list through the storage adapter.
-/

/-- JSON encoding of the collected form data (string-valued fields). -/
def encodeFormData (m : KVMap) : Json :=
  .jobj (m.map (fun p => (p.1, Json.jstr p.2)))

/-- JSON encoding of a draft record, in the field order `saveDraft`
builds it. -/
def encodeDraft (d : Draft) : Json :=
  .jobj [("id", .jstr d.id), ("name", .jstr d.name),
         ("formData", encodeFormData d.formData),
         ("currentStep", .jnum d.currentStep), ("createdAt", .jstr d.createdAt)]

/-- The `window.Storage.get(CONFIG.draftsKey) || []` read: an array is
used as-is, a falsy value becomes the empty list, and a truthy non-array
value would make the subsequent `.unshift` throw (modelled `none`). -/
def draftsOrEmpty : Json → Option (List Json)
  | .jarr xs => some xs
  | .jnull => some []
  | .jstr s => if s = "" then some [] else none
  | .jbool b => if b then none else some []
  | .jnum n => if n = 0 then some [] else none
  | .jdec m _ => if m = 0 then some [] else none
  | .jobj _ => none

/-- The stored draft list as read back through the adapter. -/
def storedDrafts (store : ScopeStore) : Option (List Json) :=
  draftsOrEmpty (Storage.get store draftsKey)

/-- `saveDraft`: prepend the new draft (`unshift`), drop the last entry
(`pop`) when the list exceeds `CONFIG.maxDrafts`, and store the result. -/
def saveDraft (store : ScopeStore) (d : Draft) : Option ScopeStore :=
  match draftsOrEmpty (Storage.get store draftsKey) with
  | none => none
  | some drafts =>
    let drafts1 := encodeDraft d :: drafts
    let drafts2 := if drafts1.length > maxDrafts then drafts1.dropLast else drafts1
    some (Storage.set store draftsKey (.jarr drafts2)).2

/-- Saving a sequence of drafts in order. -/
def saveDrafts (store : ScopeStore) (ds : List Draft) : Option ScopeStore :=
  ds.foldl (fun acc d => acc.bind (fun s => saveDraft s d)) (some store)

/-!
Submission endpoint stub (`src/functions/submit-nomination.js`).
-/

/-- The incoming request, as the handler reads it. -/
structure NetlifyEvent where
  httpMethod : String
  contentTypeHdr : Option String
  body : Option String
deriving DecidableEq

/-- The handler's response: status code plus the object passed to
`JSON.stringify` for the body. -/
structure NetlifyResponse where
  statusCode : Nat
  bodyJson : Json

/-- JavaScript `String.padStart(w, "0")` on a character list. -/
def padStartZeros (cs : List Char) (w : Nat) : List Char :=
  List.replicate (w - cs.length) '0' ++ cs

/-- The generated reference: `RARE-` + year + zero-padded month + `-` +
zero-padded 4-digit random suffix. -/
def referenceChars (year month rand : Nat) : List Char :=
  ['R', 'A', 'R', 'E', '-'] ++ natDigits year ++ padStartZeros (natDigits month) 2
    ++ ['-'] ++ padStartZeros (natDigits rand) 4

/-- The generated reference as a string. -/
def referenceString (year month rand : Nat) : String :=
  String.mk (referenceChars year month rand)

/-- `event.body || '{}'`: a missing or empty body parses as an empty
object. -/
def effectiveBody (b : Option String) : String :=
  match b with
  | some s => if s = "" then "\x7b\x7d" else s
  | none => "\x7b\x7d"

/-- The handler: reject non-POST with 405; for a JSON-labeled body that
fails to parse, the thrown parse error is caught and answered with a 400
failure body (`parseErrMsg` stands for the engine's exception message);
otherwise respond 200 with `{success: true, referenceNumber}` and no
inspection of the payload. -/
def submitNominationHandler (event : NetlifyEvent) (year month rand : Nat)
    (parseErrMsg : String) : NetlifyResponse :=
  if event.httpMethod ≠ "POST" then
    { statusCode := 405, bodyJson := .jobj [("error", .jstr "Method Not Allowed")] }
  else
    let contentType :=
      match event.contentTypeHdr with
      | some ct => ct
      | none => ""
    let bodyParses : Bool :=
      if strIncludes contentType "application/json" then
        (parseJson (effectiveBody event.body)).isSome
      else true
    if bodyParses then
      { statusCode := 200,
        bodyJson := .jobj [("success", .jbool true),
                           ("referenceNumber", .jstr (referenceString year month rand))] }
    else
      { statusCode := 400,
        bodyJson := .jobj [("success", .jbool false), ("error", .jstr parseErrMsg)] }

/-!
Round-trip infrastructure: the modelled `JSON.parse` inverts the modelled
`JSON.stringify`.
-/

theorem stringMk_data (s : String) : String.mk s.data = s := by
  cases s; rfl

theorem digitChar_isDigit (d : Nat) (h : d < 10) : (digitChar d).isDigit = true := by
  interval_cases d <;> decide

theorem digitChar_toNat (d : Nat) (h : d < 10) : (digitChar d).toNat = 48 + d := by
  interval_cases d <;> decide

theorem digitsVal_append_digit (ds : List Char) (c : Char) :
    digitsVal (ds ++ [c]) = 10 * digitsVal ds + (c.toNat - 48) := by
  simp [digitsVal, List.foldl_append]

theorem natDigitsAux_spec (fuel : Nat) :
    ∀ n, n < fuel →
      natDigitsAux fuel n ≠ []
      ∧ (∀ c ∈ natDigitsAux fuel n, c.isDigit = true)
      ∧ digitsVal (natDigitsAux fuel n) = n := by
  induction fuel with
  | zero => intro n hn; omega
  | succ f ih =>
    intro n hn
    by_cases h10 : n < 10
    · refine ⟨by simp [natDigitsAux, h10], ?_, ?_⟩
      · intro c hc
        simp [natDigitsAux, h10] at hc
        subst hc
        exact digitChar_isDigit n h10
      · simp [natDigitsAux, h10, digitsVal, digitChar_toNat n h10]
    · have hdiv : n / 10 < f := by
        have h1 : n / 10 < n := Nat.div_lt_self (by omega) (by omega)
        omega
      obtain ⟨hne, hdig, hval⟩ := ih (n / 10) hdiv
      have hmod : n % 10 < 10 := Nat.mod_lt _ (by omega)
      refine ⟨by simp [natDigitsAux, h10], ?_, ?_⟩
      · intro c hc
        simp only [natDigitsAux, if_neg h10, List.mem_append, List.mem_singleton] at hc
        rcases hc with hc | hc
        · exact hdig c hc
        · subst hc; exact digitChar_isDigit _ hmod
      · simp only [natDigitsAux, if_neg h10]
        rw [digitsVal_append_digit, hval, digitChar_toNat _ hmod]
        omega

theorem natDigits_ne_nil (n : Nat) : natDigits n ≠ [] :=
  (natDigitsAux_spec (n + 1) n (by omega)).1

theorem natDigits_all_digit (n : Nat) : ∀ c ∈ natDigits n, c.isDigit = true :=
  (natDigitsAux_spec (n + 1) n (by omega)).2.1

theorem digitsVal_natDigits (n : Nat) : digitsVal (natDigits n) = n :=
  (natDigitsAux_spec (n + 1) n (by omega)).2.2

theorem natDigits_head (n : Nat) :
    ∃ d ds, natDigits n = d :: ds ∧ d.isDigit = true := by
  cases h : natDigits n with
  | nil => exact absurd h (natDigits_ne_nil n)
  | cons d ds =>
    refine ⟨d, ds, rfl, ?_⟩
    exact natDigits_all_digit n d (by rw [h]; exact List.mem_cons_self d ds)

theorem readDigits_exact (ds rest : List Char)
    (hds : ∀ c ∈ ds, c.isDigit = true) (hrest : noDigitHead rest = true) :
    readDigits (ds ++ rest) = (ds, rest) := by
  induction ds with
  | nil =>
    cases rest with
    | nil => rfl
    | cons c t =>
      simp only [noDigitHead, Bool.not_eq_true'] at hrest
      simp [readDigits, hrest]
  | cons c t ih =>
    have hc : c.isDigit = true := hds c (List.mem_cons_self c t)
    have ht : ∀ x ∈ t, x.isDigit = true := fun x hx => hds x (List.mem_cons_of_mem c hx)
    simp [readDigits, hc, ih ht]

theorem skipWs_not_ws (c : Char) (r : List Char) (h : isJsonWs c = false) :
    skipWs (c :: r) = c :: r := by
  simp [skipWs, h]

theorem isJsonWs_digit (c : Char) (h : c.isDigit = true) : isJsonWs c = false := by
  simp only [isJsonWs, Bool.or_eq_false_iff, beq_eq_false_iff_ne]
  refine ⟨⟨⟨?_, ?_⟩, ?_⟩, ?_⟩ <;> (intro he; subst he; exact absurd h (by decide))

theorem natDigitsAux_head_ne_zero (fuel : Nat) :
    ∀ n, n < fuel → n ≠ 0 → ∀ d ds, natDigitsAux fuel n = d :: ds → d ≠ '0' := by
  induction fuel with
  | zero => intro n hn _ _ _ _; omega
  | succ f ih =>
    intro n hn hn0 d ds hds
    by_cases h10 : n < 10
    · simp only [natDigitsAux, if_pos h10] at hds
      have hd : digitChar n = d := by injection hds
      intro he
      have h1 := digitChar_toNat n h10
      rw [hd, he] at h1
      have h2 : ('0' : Char).toNat = 48 := rfl
      omega
    · have hdiv : n / 10 < f := by
        have h1 : n / 10 < n := Nat.div_lt_self (by omega) (by omega)
        omega
      have hne := (natDigitsAux_spec f (n / 10) hdiv).1
      simp only [natDigitsAux, if_neg h10] at hds
      cases hrec : natDigitsAux f (n / 10) with
      | nil => exact absurd hrec hne
      | cons d0 ds0 =>
        rw [hrec] at hds
        simp only [List.cons_append] at hds
        have hd0 : d0 = d := by injection hds
        rw [← hd0]
        exact ih (n / 10) hdiv (by omega) d0 ds0 hrec

theorem natDigits_leadingOk (n : Nat) : leadingOk (natDigits n) = true := by
  obtain ⟨d, ds, hnd, _⟩ := natDigits_head n
  by_cases hn0 : n = 0
  · subst hn0
    rfl
  · have hd0 : d ≠ '0' := natDigitsAux_head_ne_zero (n + 1) n (by omega) hn0 d ds hnd
    rw [hnd]
    show (!(d == '0') || ds.isEmpty) = true
    simp [hd0]

theorem hexVal_hexDigitChar (n : Nat) (h : n < 16) :
    hexVal (hexDigitChar n) = some n := by
  interval_cases n <;> decide

theorem escStr_cons (c : Char) (t : List Char) :
    escStr (c :: t) = escChar c ++ escStr t := rfl

theorem escChar_length_pos (c : Char) : 1 ≤ (escChar c).length := by
  unfold escChar
  split_ifs <;> simp

theorem escStr_length_ge (cs : List Char) : cs.length ≤ (escStr cs).length := by
  induction cs with
  | nil => simp [escStr]
  | cons c t ih =>
    rw [escStr_cons]
    have := escChar_length_pos c
    simp only [List.length_append, List.length_cons]
    omega

theorem readString_escStr (cs : List Char) :
    ∀ fuel rest, cs.length < fuel →
      readString fuel (escStr cs ++ '\"' :: rest) = some (cs, rest) := by
  induction cs with
  | nil =>
    intro fuel rest hf
    cases fuel with
    | zero => omega
    | succ f => rfl
  | cons c t ih =>
    intro fuel rest hf
    cases fuel with
    | zero => omega
    | succ f =>
      have htf : t.length < f := by
        simp only [List.length_cons] at hf
        omega
      rw [escStr_cons]
      by_cases h1 : c = '\"'
      · subst h1
        show (match unescapeChar '\"', readString f (escStr t ++ '\"' :: rest) with
          | some u, some (s, r) => some (u :: s, r)
          | _, _ => none) = _
        rw [ih f rest htf]
        rfl
      · by_cases h2 : c = '\\'
        · subst h2
          show (match unescapeChar '\\', readString f (escStr t ++ '\"' :: rest) with
            | some u, some (s, r) => some (u :: s, r)
            | _, _ => none) = _
          rw [ih f rest htf]
          rfl
        · by_cases h3 : c = Char.ofNat 8
          · subst h3
            show (match unescapeChar 'b', readString f (escStr t ++ '\"' :: rest) with
              | some u, some (s, r) => some (u :: s, r)
              | _, _ => none) = _
            rw [ih f rest htf]
            rfl
          · by_cases h4 : c = '\t'
            · subst h4
              show (match unescapeChar 't', readString f (escStr t ++ '\"' :: rest) with
                | some u, some (s, r) => some (u :: s, r)
                | _, _ => none) = _
              rw [ih f rest htf]
              rfl
            · by_cases h5 : c = '\n'
              · subst h5
                show (match unescapeChar 'n', readString f (escStr t ++ '\"' :: rest) with
                  | some u, some (s, r) => some (u :: s, r)
                  | _, _ => none) = _
                rw [ih f rest htf]
                rfl
              · by_cases h6 : c = Char.ofNat 12
                · subst h6
                  show (match unescapeChar 'f', readString f (escStr t ++ '\"' :: rest) with
                    | some u, some (s, r) => some (u :: s, r)
                    | _, _ => none) = _
                  rw [ih f rest htf]
                  rfl
                · by_cases h7 : c = '\r'
                  · subst h7
                    show (match unescapeChar 'r', readString f (escStr t ++ '\"' :: rest) with
                      | some u, some (s, r) => some (u :: s, r)
                      | _, _ => none) = _
                    rw [ih f rest htf]
                    rfl
                  · by_cases h8 : c.toNat < 32
                    · have hesc : escChar c = ['\\', 'u', '0', '0',
                          hexDigitChar (c.toNat / 16), hexDigitChar (c.toNat % 16)] := by
                        simp [escChar, h1, h2, h3, h4, h5, h6, h7, h8]
                      rw [hesc]
                      have hdec : decodeU ('0' :: '0' :: hexDigitChar (c.toNat / 16)
                          :: hexDigitChar (c.toNat % 16) :: (escStr t ++ '\"' :: rest))
                          = some (c, escStr t ++ '\"' :: rest) := by
                        have ha : c.toNat / 16 < 16 := by omega
                        have hb : c.toNat % 16 < 16 := by
                          have := Nat.mod_lt c.toNat (show 0 < 16 by omega)
                          omega
                        have h00 : hexVal '0' = some 0 := rfl
                        simp only [decodeU]
                        rw [h00, hexVal_hexDigitChar _ ha, hexVal_hexDigitChar _ hb]
                        show (if ((0 * 16 + 0) * 16 + c.toNat / 16) * 16 + c.toNat % 16 < 55296
                            ∨ 57344 ≤ ((0 * 16 + 0) * 16 + c.toNat / 16) * 16 + c.toNat % 16 then
                            some (Char.ofNat (((0 * 16 + 0) * 16 + c.toNat / 16) * 16
                                + c.toNat % 16), escStr t ++ '\"' :: rest)
                          else decodeUPair (((0 * 16 + 0) * 16 + c.toNat / 16) * 16
                                + c.toNat % 16) (escStr t ++ '\"' :: rest)) = _
                        have hv : ((0 * 16 + 0) * 16 + c.toNat / 16) * 16 + c.toNat % 16
                            = c.toNat := by omega
                        rw [hv, if_pos (Or.inl (by omega : c.toNat < 55296)),
                          Char.ofNat_toNat]
                      show (match decodeU ('0' :: '0' :: hexDigitChar (c.toNat / 16)
                          :: hexDigitChar (c.toNat % 16) :: (escStr t ++ '\"' :: rest)) with
                        | some (u, cs3) =>
                          (match readString f cs3 with
                           | some (s, r) => some (u :: s, r)
                           | none => none)
                        | none => none) = _
                      rw [hdec]
                      show (match readString f (escStr t ++ '\"' :: rest) with
                        | some (s, r) => some (c :: s, r)
                        | none => none) = _
                      rw [ih f rest htf]
                    · have hesc : escChar c = [c] := by
                        simp [escChar, h1, h2, h3, h4, h5, h6, h7, h8]
                      rw [hesc]
                      show readString (f + 1) (c :: (escStr t ++ '\"' :: rest)) = _
                      simp only [readString]
                      rw [if_neg h1, if_neg h2, if_neg h8, ih f rest htf]

theorem digit_not_special (c : Char) (h : c.isDigit = true) :
    c ≠ 'n' ∧ c ≠ 't' ∧ c ≠ 'f' ∧ c ≠ '-' := by
  refine ⟨?_, ?_, ?_, ?_⟩ <;> (intro he; subst he; exact absurd h (by decide))

theorem digit_not_plus (c : Char) (h : c.isDigit = true) : c ≠ '+' := by
  intro he; subst he; exact absurd h (by decide)

theorem numTail_conds (c : Char) (r : List Char) (h : numTailOk (c :: r) = true) :
    c.isDigit = false ∧ ¬ c = '.' ∧ ¬ (c = 'e' ∨ c = 'E') := by
  have h' : (c.isDigit || c == '.' || c == 'e' || c == 'E') = false := by
    simpa [numTailOk] using h
  simp only [Bool.or_eq_false_iff, beq_eq_false_iff_ne] at h'
  refine ⟨h'.1.1.1, h'.1.1.2, ?_⟩
  rintro (he | he)
  · exact h'.1.2 he
  · exact h'.2 he

theorem noDigit_of_numTail (rest : List Char) (h : numTailOk rest = true) :
    noDigitHead rest = true := by
  cases rest with
  | nil => rfl
  | cons c r =>
    obtain ⟨hd, _, _⟩ := numTail_conds c r h
    simp [noDigitHead, hd]

theorem numAfterInt_delim (neg : Bool) (ds rest : List Char) (h : numTailOk rest = true) :
    numAfterInt neg ds rest = some (.jnum (signedVal neg ds), rest) := by
  cases rest with
  | nil => rfl
  | cons c r1 =>
    obtain ⟨_, hdot, hee⟩ := numTail_conds c r1 h
    simp only [numAfterInt]
    rw [if_neg hdot, if_neg hee]

theorem readExpPart_encInt (ex : Int) (rest : List Char) (h : noDigitHead rest = true) :
    readExpPart (encInt ex ++ rest) = some (ex, rest) := by
  by_cases hneg : ex < 0
  · have henc : encInt ex ++ rest = '-' :: (natDigits ex.natAbs ++ rest) := by
      simp [encInt, hneg]
    rw [henc]
    simp only [readExpPart]
    rw [if_pos trivial]
    rw [readDigits_exact _ _ (natDigits_all_digit _) h]
    obtain ⟨d, ds, hnd, _⟩ := natDigits_head ex.natAbs
    rw [hnd]
    show some (-(digitsVal (d :: ds) : Int), rest) = _
    rw [← hnd, digitsVal_natDigits]
    have hval : -((ex.natAbs : Int)) = ex := by omega
    rw [hval]
  · have hge : 0 ≤ ex := by omega
    obtain ⟨d, ds, hnd, hd⟩ := natDigits_head ex.toNat
    have henc : encInt ex ++ rest = d :: (ds ++ rest) := by
      simp [encInt, hneg, hnd]
    rw [henc]
    simp only [readExpPart]
    rw [if_neg (digit_not_plus d hd), if_neg (digit_not_special d hd).2.2.2]
    have hall : ∀ x ∈ d :: ds, x.isDigit = true := by
      rw [← hnd]; exact natDigits_all_digit ex.toNat
    have hrd : readDigits (d :: (ds ++ rest)) = (d :: ds, rest) := by
      have := readDigits_exact (d :: ds) rest hall h
      simpa using this
    rw [hrd]
    show some ((digitsVal (d :: ds) : Int), rest) = _
    rw [← hnd, digitsVal_natDigits, Int.toNat_of_nonneg hge]

theorem parseNumber_int (neg : Bool) (n : Nat) (rest : List Char)
    (h : numTailOk rest = true) :
    parseNumber neg (natDigits n ++ rest)
      = some (.jnum (signedVal neg (natDigits n)), rest) := by
  have hrd := readDigits_exact (natDigits n) rest (natDigits_all_digit n)
    (noDigit_of_numTail rest h)
  obtain ⟨d, ds, hnd, _⟩ := natDigits_head n
  simp only [parseNumber, hrd]
  rw [hnd]
  show (if leadingOk (d :: ds) = true then numAfterInt neg (d :: ds) rest else none) = _
  have hlead : leadingOk (d :: ds) = true := by rw [← hnd]; exact natDigits_leadingOk n
  rw [if_pos hlead]
  exact numAfterInt_delim neg (d :: ds) rest h

theorem parseNumber_exp (neg : Bool) (a : Nat) (ex : Int) (rest : List Char)
    (h : numTailOk rest = true) :
    parseNumber neg (natDigits a ++ 'e' :: (encInt ex ++ rest))
      = some (.jdec (signedVal neg (natDigits a)) ex, rest) := by
  have hnd0 : noDigitHead ('e' :: (encInt ex ++ rest)) = true := rfl
  have hrd := readDigits_exact (natDigits a) _ (natDigits_all_digit a) hnd0
  obtain ⟨d, ds, hnd, _⟩ := natDigits_head a
  simp only [parseNumber, hrd]
  rw [hnd]
  show (if leadingOk (d :: ds) = true
      then numAfterInt neg (d :: ds) ('e' :: (encInt ex ++ rest)) else none) = _
  have hlead : leadingOk (d :: ds) = true := by rw [← hnd]; exact natDigits_leadingOk a
  rw [if_pos hlead]
  simp only [numAfterInt]
  rw [if_neg (by decide : ¬ ('e' : Char) = '.'), if_pos (Or.inl trivial)]
  rw [readExpPart_encInt ex rest (noDigit_of_numTail rest h)]

theorem encJson_head (v : Json) :
    ∃ c cs, encJson v = c :: cs ∧ c ≠ ']' ∧ isJsonWs c = false := by
  cases v with
  | jnull => exact ⟨'n', _, rfl, by decide, by decide⟩
  | jbool b => cases b with
    | true => exact ⟨'t', _, rfl, by decide, by decide⟩
    | false => exact ⟨'f', _, rfl, by decide, by decide⟩
  | jnum n =>
    by_cases hneg : n < 0
    · refine ⟨'-', natDigits n.natAbs, ?_, by decide, by decide⟩
      simp [encJson, encInt, hneg]
    · obtain ⟨d, ds, hnd, hd⟩ := natDigits_head n.toNat
      refine ⟨d, ds, by simp [encJson, encInt, hneg, hnd], ?_, isJsonWs_digit d hd⟩
      intro he; subst he; exact absurd hd (by decide)
  | jdec m e =>
    by_cases hneg : m < 0
    · refine ⟨'-', natDigits m.natAbs ++ 'e' :: encInt e, ?_, by decide, by decide⟩
      simp [encJson, encInt, hneg]
    · obtain ⟨d, ds, hnd, hd⟩ := natDigits_head m.toNat
      refine ⟨d, ds ++ 'e' :: encInt e, ?_, ?_, isJsonWs_digit d hd⟩
      · simp [encJson, encInt, hneg, hnd]
      · intro he; subst he; exact absurd hd (by decide)
  | jstr s => exact ⟨'\"', _, rfl, by decide, by decide⟩
  | jarr xs => exact ⟨'[', _, rfl, by decide, by decide⟩
  | jobj kvs => exact ⟨lbraceC, _, rfl, by decide, by decide⟩

theorem numDelim_cons (v : Json) (c : Char) (r : List Char)
    (h : (c.isDigit || c == '.' || c == 'e' || c == 'E') = false) :
    numDelimOk v (c :: r) := by
  cases v <;> simp [numDelimOk, numTailOk, h]

theorem szJson_pos (v : Json) : 1 ≤ szJson v := by
  cases v <;> simp only [szJson] <;> omega

theorem szItems_pos (xs : List Json) (h : xs ≠ []) : 1 ≤ szItems xs := by
  cases xs with
  | nil => exact absurd rfl h
  | cons x t => simp only [szItems]; omega

theorem szMembers_pos (kvs : List (String × Json)) (h : kvs ≠ []) : 1 ≤ szMembers kvs := by
  cases kvs with
  | nil => exact absurd rfl h
  | cons kv t => obtain ⟨k, v⟩ := kv; simp [szMembers]; omega

theorem encJson_length_pos (v : Json) : 1 ≤ (encJson v).length := by
  obtain ⟨c, cs, h, _⟩ := encJson_head v
  rw [h]
  simp

theorem encItemsSep_cons (x : Json) (t : List Json) :
    ∃ tail, encItemsSep (x :: t) = encJson x ++ tail := by
  cases t with
  | nil => exact ⟨[], by simp [encItemsSep]⟩
  | cons y t2 => exact ⟨',' :: encItemsSep (y :: t2), rfl⟩

theorem encMembersSep_cons (kv : String × Json) (t : List (String × Json)) :
    ∃ tail, encMembersSep (kv :: t) = encMember kv ++ tail := by
  cases t with
  | nil => exact ⟨[], by simp [encMembersSep]⟩
  | cons kv2 t2 => exact ⟨',' :: encMembersSep (kv2 :: t2), rfl⟩

theorem parseValue_null (f : Nat) (r : List Char) :
    parseValue (f + 1) ('n' :: 'u' :: 'l' :: 'l' :: r) = some (.jnull, r) := rfl

theorem parseValue_true (f : Nat) (r : List Char) :
    parseValue (f + 1) ('t' :: 'r' :: 'u' :: 'e' :: r) = some (.jbool true, r) := rfl

theorem parseValue_false (f : Nat) (r : List Char) :
    parseValue (f + 1) ('f' :: 'a' :: 'l' :: 's' :: 'e' :: r) = some (.jbool false, r) := rfl

theorem parseValue_dash (f : Nat) (X : List Char) :
    parseValue (f + 1) ('-' :: X) = parseNumber true X := rfl

theorem parseValue_quote (f : Nat) (X : List Char) :
    parseValue (f + 1) ('\"' :: X) =
      match readString (X.length + 1) X with
      | some (s, r) => some (.jstr (String.mk s), r)
      | none => none := rfl

theorem parseValue_lbrack (f : Nat) (X : List Char) :
    parseValue (f + 1) ('[' :: X) =
      match skipWs X with
      | [] => none
      | c2 :: r2 =>
        if c2 = ']' then some (.jarr [], r2)
        else
          match parseItems f (c2 :: r2) with
          | some (xs, r) => some (.jarr xs, r)
          | none => none := rfl

theorem parseValue_lbrace (f : Nat) (X : List Char) :
    parseValue (f + 1) (lbraceC :: X) =
      match skipWs X with
      | [] => none
      | c2 :: r2 =>
        if c2 = rbraceC then some (.jobj [], r2)
        else
          match parseMembers f (c2 :: r2) with
          | some (kvs, r) => some (.jobj kvs, r)
          | none => none := rfl

theorem parseValue_digit (f : Nat) (c : Char) (X : List Char) (h : c.isDigit = true)
    (h1 : c ≠ 'n') (h2 : c ≠ 't') (h3 : c ≠ 'f') (h4 : c ≠ '-') :
    parseValue (f + 1) (c :: X) = parseNumber false (c :: X) := by
  have hskip : skipWs (c :: X) = c :: X := skipWs_not_ws c X (isJsonWs_digit c h)
  simp only [parseValue, hskip, if_neg h1, if_neg h2, if_neg h3, if_neg h4, h, if_true]

theorem parseItems_succ (f : Nat) (cs : List Char) :
    parseItems (f + 1) cs =
      match parseValue f cs with
      | none => none
      | some (v, r) =>
        match skipWs r with
        | [] => none
        | c :: r2 =>
          if c = ',' then
            match parseItems f r2 with
            | some (vs, r3) => some (v :: vs, r3)
            | none => none
          else if c = ']' then some ([v], r2)
          else none := rfl

theorem parseMembers_quote (f : Nat) (X : List Char) :
    parseMembers (f + 1) ('\"' :: X) =
      match readString (X.length + 1) X with
      | none => none
      | some (kcs, r) =>
        match skipWs r with
        | [] => none
        | c2 :: r2 =>
          if c2 = ':' then
            match parseValue f r2 with
            | none => none
            | some (v, r3) =>
              match skipWs r3 with
              | [] => none
              | c3 :: r4 =>
                if c3 = ',' then
                  match parseMembers f r4 with
                  | some (kvs, r5) => some ((String.mk kcs, v) :: kvs, r5)
                  | none => none
                else if c3 = rbraceC then some ([(String.mk kcs, v)], r4)
                else none
          else none := rfl

theorem numDelim_nil (v : Json) : numDelimOk v [] := by
  cases v <;> simp [numDelimOk, numTailOk]

theorem encJson_len_arr (xs : List Json) :
    (encJson (Json.jarr xs)).length = (encItemsSep xs).length + 2 := by
  simp [encJson]

theorem encJson_len_obj (kvs : List (String × Json)) :
    (encJson (Json.jobj kvs)).length = (encMembersSep kvs).length + 2 := by
  simp [encJson]

theorem encMember_len (k : String) (v : Json) :
    (encMember (k, v)).length = (escStr k.data).length + (encJson v).length + 3 := by
  simp [encMember]
  omega

theorem sz_le_encLen (N : Nat) :
    (∀ v, szJson v ≤ N → szJson v ≤ (encJson v).length)
    ∧ (∀ xs, szItems xs ≤ N → szItems xs ≤ (encItemsSep xs).length + 1)
    ∧ (∀ kvs, szMembers kvs ≤ N → szMembers kvs ≤ (encMembersSep kvs).length + 1) := by
  induction N with
  | zero =>
    refine ⟨fun v hv => ?_, fun xs hxs => ?_, fun kvs hk => ?_⟩
    · exact absurd hv (by have := szJson_pos v; omega)
    · cases xs with
      | nil => simp [szItems]
      | cons x t => exact absurd hxs (by have := szItems_pos (x :: t) (by simp); omega)
    · cases kvs with
      | nil => simp [szMembers]
      | cons kv t => exact absurd hk (by have := szMembers_pos (kv :: t) (by simp); omega)
  | succ N ih =>
    obtain ⟨ihV, ihI, ihM⟩ := ih
    refine ⟨fun v hv => ?_, fun xs hxs => ?_, fun kvs hk => ?_⟩
    · cases v with
      | jarr xs =>
        have he : szJson (Json.jarr xs) = 1 + szItems xs := rfl
        have hi : szItems xs ≤ N := by omega
        have := ihI xs hi
        have := encJson_len_arr xs
        omega
      | jobj kvs =>
        have he : szJson (Json.jobj kvs) = 1 + szMembers kvs := rfl
        have hm : szMembers kvs ≤ N := by omega
        have := ihM kvs hm
        have := encJson_len_obj kvs
        omega
      | jnull => have := encJson_length_pos Json.jnull; simp only [szJson]; omega
      | jbool b => have := encJson_length_pos (Json.jbool b); simp only [szJson]; omega
      | jnum n => have := encJson_length_pos (Json.jnum n); simp only [szJson]; omega
      | jdec m e => have := encJson_length_pos (Json.jdec m e); simp only [szJson]; omega
      | jstr s => have := encJson_length_pos (Json.jstr s); simp only [szJson]; omega
    · cases xs with
      | nil => simp [szItems]
      | cons x t =>
        cases t with
        | nil =>
          have he : szItems [x] = 1 + szJson x + 0 := rfl
          have hx : szJson x ≤ N := by omega
          have := ihV x hx
          have hsep : encItemsSep [x] = encJson x := by simp [encItemsSep]
          rw [hsep]
          omega
        | cons y t2 =>
          have he : szItems (x :: y :: t2) = 1 + szJson x + szItems (y :: t2) := rfl
          have hx : szJson x ≤ N := by have := szItems_pos (y :: t2) (by simp); omega
          have hyt : szItems (y :: t2) ≤ N := by have := szJson_pos x; omega
          have h1 := ihV x hx
          have h2 := ihI (y :: t2) hyt
          have hsep : (encItemsSep (x :: y :: t2)).length
              = (encJson x).length + 1 + (encItemsSep (y :: t2)).length := by
            show (encJson x ++ ',' :: encItemsSep (y :: t2)).length = _
            simp
            omega
          omega
    · cases kvs with
      | nil => simp [szMembers]
      | cons kv t =>
        obtain ⟨k, v⟩ := kv
        cases t with
        | nil =>
          have he : szMembers [(k, v)] = 1 + szJson v + 0 := rfl
          have hx : szJson v ≤ N := by omega
          have h1 := ihV v hx
          have hsep : encMembersSep [(k, v)] = encMember (k, v) := by simp [encMembersSep]
          rw [hsep, encMember_len]
          omega
        | cons kv2 t2 =>
          have he : szMembers ((k, v) :: kv2 :: t2) = 1 + szJson v + szMembers (kv2 :: t2) := rfl
          have hx : szJson v ≤ N := by have := szMembers_pos (kv2 :: t2) (by simp); omega
          have hyt : szMembers (kv2 :: t2) ≤ N := by have := szJson_pos v; omega
          have h1 := ihV v hx
          have h2 := ihM (kv2 :: t2) hyt
          have hsep : (encMembersSep ((k, v) :: kv2 :: t2)).length
              = (encMember (k, v)).length + 1 + (encMembersSep (kv2 :: t2)).length := by
            show (encMember (k, v) ++ ',' :: encMembersSep (kv2 :: t2)).length = _
            simp
            omega
          have h3 := encMember_len k v
          omega

theorem parse_enc_aux (N : Nat) :
    (∀ v, szJson v ≤ N → ∀ fuel rest, szJson v ≤ fuel → numDelimOk v rest →
        parseValue fuel (encJson v ++ rest) = some (v, rest))
    ∧ (∀ xs, xs ≠ [] → szItems xs ≤ N → ∀ fuel rest, szItems xs ≤ fuel →
        parseItems fuel (encItemsSep xs ++ ']' :: rest) = some (xs, rest))
    ∧ (∀ kvs, kvs ≠ [] → szMembers kvs ≤ N → ∀ fuel rest, szMembers kvs ≤ fuel →
        parseMembers fuel (encMembersSep kvs ++ rbraceC :: rest) = some (kvs, rest)) := by
  induction N with
  | zero =>
    refine ⟨fun v hv => ?_, fun xs hne hxs => ?_, fun kvs hne hk => ?_⟩
    · exact absurd hv (by have := szJson_pos v; omega)
    · exact absurd hxs (by have := szItems_pos xs hne; omega)
    · exact absurd hk (by have := szMembers_pos kvs hne; omega)
  | succ N ih =>
    obtain ⟨ihV, ihI, ihM⟩ := ih
    refine ⟨fun v hv fuel rest hfuel hdelim => ?_,
            fun xs hne hxs fuel rest hfuel => ?_,
            fun kvs hne hk fuel rest hfuel => ?_⟩
    · cases fuel with
      | zero => exact absurd hfuel (by have := szJson_pos v; omega)
      | succ f =>
        cases v with
        | jnull => exact parseValue_null f rest
        | jbool b =>
          cases b with
          | false => exact parseValue_false f rest
          | true => exact parseValue_true f rest
        | jnum n =>
          have hdg : numTailOk rest = true := hdelim
          by_cases hneg : n < 0
          · have henc : encJson (Json.jnum n) ++ rest = '-' :: (natDigits n.natAbs ++ rest) := by
              show encInt n ++ rest = _
              simp [encInt, hneg]
            rw [henc, parseValue_dash, parseNumber_int true n.natAbs rest hdg]
            have hval : signedVal true (natDigits n.natAbs) = n := by
              rw [signedVal, if_pos rfl, digitsVal_natDigits]
              omega
            rw [hval]
          · obtain ⟨d, ds, hnd, hd⟩ := natDigits_head n.toNat
            obtain ⟨hn1, hn2, hn3, hn4⟩ := digit_not_special d hd
            have henc : encJson (Json.jnum n) ++ rest = d :: (ds ++ rest) := by
              show encInt n ++ rest = _
              simp [encInt, hneg, hnd]
            rw [henc, parseValue_digit f d _ hd hn1 hn2 hn3 hn4]
            have hre : d :: (ds ++ rest) = natDigits n.toNat ++ rest := by
              rw [hnd]
              rfl
            rw [hre, parseNumber_int false n.toNat rest hdg]
            have hval : signedVal false (natDigits n.toNat) = n := by
              rw [signedVal, if_neg (by decide : ¬ false = true), digitsVal_natDigits]
              omega
            rw [hval]
        | jdec m ex =>
          have hdg : numTailOk rest = true := hdelim
          by_cases hneg : m < 0
          · have henc : encJson (Json.jdec m ex) ++ rest
                = '-' :: (natDigits m.natAbs ++ 'e' :: (encInt ex ++ rest)) := by
              show (encInt m ++ 'e' :: encInt ex) ++ rest = _
              simp [encInt, hneg]
            rw [henc, parseValue_dash, parseNumber_exp true m.natAbs ex rest hdg]
            have hval : signedVal true (natDigits m.natAbs) = m := by
              rw [signedVal, if_pos rfl, digitsVal_natDigits]
              omega
            rw [hval]
          · obtain ⟨d, ds, hnd, hd⟩ := natDigits_head m.toNat
            obtain ⟨hn1, hn2, hn3, hn4⟩ := digit_not_special d hd
            have henc : encJson (Json.jdec m ex) ++ rest
                = d :: (ds ++ 'e' :: (encInt ex ++ rest)) := by
              show (encInt m ++ 'e' :: encInt ex) ++ rest = _
              simp [encInt, hneg, hnd]
            rw [henc, parseValue_digit f d _ hd hn1 hn2 hn3 hn4]
            have hre : d :: (ds ++ 'e' :: (encInt ex ++ rest))
                = natDigits m.toNat ++ 'e' :: (encInt ex ++ rest) := by
              rw [hnd]
              rfl
            rw [hre, parseNumber_exp false m.toNat ex rest hdg]
            have hval : signedVal false (natDigits m.toNat) = m := by
              rw [signedVal, if_neg (by decide : ¬ false = true), digitsVal_natDigits]
              omega
            rw [hval]
        | jstr s =>
          show parseValue (f + 1) (('\"' :: (escStr s.data ++ ['\"'])) ++ rest) = _
          rw [List.cons_append, parseValue_quote]
          have hre : (escStr s.data ++ ['\"']) ++ rest = escStr s.data ++ '\"' :: rest := by
            simp
          rw [hre, readString_escStr s.data _ rest (by
            have := escStr_length_ge s.data
            simp only [List.length_append, List.length_cons]
            omega)]
        | jarr xs =>
          cases xs with
          | nil => rfl
          | cons x t =>
            have hsz1 : szJson (Json.jarr (x :: t)) = 1 + szItems (x :: t) := rfl
            have hsz : szItems (x :: t) ≤ N := by omega
            have hszf : szItems (x :: t) ≤ f := by omega
            obtain ⟨c, cs, hhead, hcne, hws⟩ := encJson_head x
            obtain ⟨tail, htail⟩ := encItemsSep_cons x t
            show parseValue (f + 1) ('[' :: ((encItemsSep (x :: t) ++ [']']) ++ rest)) = _
            have hY : (encItemsSep (x :: t) ++ [']']) ++ rest
                = c :: (cs ++ (tail ++ ']' :: rest)) := by
              rw [htail, hhead]; simp
            rw [hY, parseValue_lbrack, skipWs_not_ws c _ hws]
            show (if c = ']' then some (Json.jarr [], cs ++ (tail ++ ']' :: rest))
              else match parseItems f (c :: (cs ++ (tail ++ ']' :: rest))) with
                | some (xs2, r) => some (Json.jarr xs2, r)
                | none => none) = _
            rw [if_neg hcne]
            have hback : c :: (cs ++ (tail ++ ']' :: rest))
                = encItemsSep (x :: t) ++ ']' :: rest := by
              rw [htail, hhead]; simp
            rw [hback, ihI (x :: t) (by simp) hsz f rest hszf]
        | jobj kvs =>
          cases kvs with
          | nil => rfl
          | cons kv t =>
            have hsz1 : szJson (Json.jobj (kv :: t)) = 1 + szMembers (kv :: t) := rfl
            have hsz : szMembers (kv :: t) ≤ N := by omega
            have hszf : szMembers (kv :: t) ≤ f := by omega
            obtain ⟨k, v⟩ := kv
            obtain ⟨tail, htail⟩ := encMembersSep_cons (k, v) t
            show parseValue (f + 1)
                (lbraceC :: ((encMembersSep ((k, v) :: t) ++ [rbraceC]) ++ rest)) = _
            have hY : (encMembersSep ((k, v) :: t) ++ [rbraceC]) ++ rest
                = '\"' :: (((escStr k.data ++ ['\"']) ++ ':' :: encJson v)
                    ++ (tail ++ rbraceC :: rest)) := by
              rw [htail]
              show (('\"' :: ((escStr k.data ++ ['\"']) ++ ':' :: encJson v) ++ tail)
                  ++ [rbraceC]) ++ rest = _
              simp
            rw [hY, parseValue_lbrace]
            show (if ('\"' : Char) = rbraceC then
                some (Json.jobj [], ((escStr k.data ++ ['\"']) ++ ':' :: encJson v)
                  ++ (tail ++ rbraceC :: rest))
              else match parseMembers f ('\"' :: (((escStr k.data ++ ['\"']) ++ ':' :: encJson v)
                  ++ (tail ++ rbraceC :: rest))) with
                | some (kvs2, r) => some (Json.jobj kvs2, r)
                | none => none) = _
            rw [if_neg (by decide : ¬ ('\"' : Char) = rbraceC)]
            have hback : '\"' :: (((escStr k.data ++ ['\"']) ++ ':' :: encJson v)
                  ++ (tail ++ rbraceC :: rest))
                = encMembersSep ((k, v) :: t) ++ rbraceC :: rest := by
              rw [htail]
              show _ = ('\"' :: ((escStr k.data ++ ['\"']) ++ ':' :: encJson v) ++ tail)
                  ++ rbraceC :: rest
              simp
            rw [hback, ihM ((k, v) :: t) (by simp) hsz f rest hszf]
    · cases xs with
      | nil => exact absurd rfl hne
      | cons x t =>
        cases fuel with
        | zero => exact absurd hfuel (by have := szItems_pos (x :: t) hne; omega)
        | succ f =>
          rw [parseItems_succ]
          cases t with
          | nil =>
            have he : szItems [x] = 1 + szJson x + 0 := rfl
            have hszx : szJson x ≤ N := by omega
            have hfx : szJson x ≤ f := by omega
            have hsep : encItemsSep [x] = encJson x := by simp [encItemsSep]
            rw [hsep, ihV x hszx f (']' :: rest) hfx (numDelim_cons x ']' rest (by decide))]
            rfl
          | cons y t2 =>
            have he : szItems (x :: y :: t2) = 1 + szJson x + szItems (y :: t2) := rfl
            have hszx : szJson x ≤ N := by have := szItems_pos (y :: t2) (by simp); omega
            have hfx : szJson x ≤ f := by have := szItems_pos (y :: t2) (by simp); omega
            have hszyt : szItems (y :: t2) ≤ N := by have := szJson_pos x; omega
            have hfyt : szItems (y :: t2) ≤ f := by have := szJson_pos x; omega
            have hre : encItemsSep (x :: y :: t2) ++ ']' :: rest
                = encJson x ++ ',' :: (encItemsSep (y :: t2) ++ ']' :: rest) := by
              show (encJson x ++ ',' :: encItemsSep (y :: t2)) ++ ']' :: rest = _
              simp
            rw [hre, ihV x hszx f _ hfx (numDelim_cons x ',' _ (by decide))]
            show (match parseItems f (encItemsSep (y :: t2) ++ ']' :: rest) with
              | some (vs, r3) => some (x :: vs, r3)
              | none => none) = _
            rw [ihI (y :: t2) (by simp) hszyt f rest hfyt]
    · cases kvs with
      | nil => exact absurd rfl hne
      | cons kv t =>
        obtain ⟨k, v⟩ := kv
        cases fuel with
        | zero => exact absurd hfuel (by have := szMembers_pos ((k, v) :: t) hne; omega)
        | succ f =>
          cases t with
          | nil =>
            have he : szMembers [(k, v)] = 1 + szJson v + 0 := rfl
            have hszv : szJson v ≤ N := by omega
            have hfv : szJson v ≤ f := by omega
            have hre : encMembersSep [(k, v)] ++ rbraceC :: rest
                = '\"' :: (escStr k.data ++ '\"' :: (':' :: (encJson v ++ rbraceC :: rest))) := by
              show ('\"' :: ((escStr k.data ++ ['\"']) ++ ':' :: encJson v)) ++ rbraceC :: rest = _
              simp
            rw [hre, parseMembers_quote,
              readString_escStr k.data _ (':' :: (encJson v ++ rbraceC :: rest)) (by
                have := escStr_length_ge k.data
                simp only [List.length_append, List.length_cons]
                omega)]
            show (match parseValue f (encJson v ++ rbraceC :: rest) with
              | none => none
              | some (v2, r3) =>
                match skipWs r3 with
                | [] => none
                | c3 :: r4 =>
                  if c3 = ',' then
                    match parseMembers f r4 with
                    | some (kvs2, r5) => some ((String.mk k.data, v2) :: kvs2, r5)
                    | none => none
                  else if c3 = rbraceC then some ([(String.mk k.data, v2)], r4)
                  else none) = _
            rw [ihV v hszv f _ hfv (numDelim_cons v rbraceC rest (by decide))]
            rfl
          | cons kv2 t2 =>
            have he : szMembers ((k, v) :: kv2 :: t2) = 1 + szJson v + szMembers (kv2 :: t2) := rfl
            have hszv : szJson v ≤ N := by have := szMembers_pos (kv2 :: t2) (by simp); omega
            have hfv : szJson v ≤ f := by have := szMembers_pos (kv2 :: t2) (by simp); omega
            have hszt : szMembers (kv2 :: t2) ≤ N := by have := szJson_pos v; omega
            have hft : szMembers (kv2 :: t2) ≤ f := by have := szJson_pos v; omega
            have hre : encMembersSep ((k, v) :: kv2 :: t2) ++ rbraceC :: rest
                = '\"' :: (escStr k.data ++ '\"' ::
                    (':' :: (encJson v ++ ',' :: (encMembersSep (kv2 :: t2) ++ rbraceC :: rest)))) := by
              show (('\"' :: ((escStr k.data ++ ['\"']) ++ ':' :: encJson v))
                  ++ ',' :: encMembersSep (kv2 :: t2)) ++ rbraceC :: rest = _
              simp
            rw [hre, parseMembers_quote,
              readString_escStr k.data _
                (':' :: (encJson v ++ ',' :: (encMembersSep (kv2 :: t2) ++ rbraceC :: rest))) (by
                have := escStr_length_ge k.data
                simp only [List.length_append, List.length_cons]
                omega)]
            show (match parseValue f (encJson v ++ ',' :: (encMembersSep (kv2 :: t2) ++ rbraceC :: rest)) with
              | none => none
              | some (v2, r3) =>
                match skipWs r3 with
                | [] => none
                | c3 :: r4 =>
                  if c3 = ',' then
                    match parseMembers f r4 with
                    | some (kvs2, r5) => some ((String.mk k.data, v2) :: kvs2, r5)
                    | none => none
                  else if c3 = rbraceC then some ([(String.mk k.data, v2)], r4)
                  else none) = _
            rw [ihV v hszv f _ hfv (numDelim_cons v ',' _ (by decide))]
            show (match parseMembers f (encMembersSep (kv2 :: t2) ++ rbraceC :: rest) with
              | some (kvs2, r5) => some ((String.mk k.data, v) :: kvs2, r5)
              | none => none) = _
            rw [ihM (kv2 :: t2) (by simp) hszt f rest hft]

theorem parseValue_encJson (v : Json) (fuel : Nat) (rest : List Char)
    (hfuel : szJson v ≤ fuel) (hdelim : numDelimOk v rest) :
    parseValue fuel (encJson v ++ rest) = some (v, rest) :=
  (parse_enc_aux (szJson v)).1 v le_rfl fuel rest hfuel hdelim

theorem parseJson_stringifyJson (v : Json) : parseJson (stringifyJson v) = some v := by
  have hsz : szJson v ≤ (encJson v).length := (sz_le_encLen (szJson v)).1 v le_rfl
  have hmain := parseValue_encJson v ((encJson v).length + 1) [] (by omega) (numDelim_nil v)
  rw [List.append_nil] at hmain
  have hdata : (stringifyJson v).data = encJson v := rfl
  have hlen : (stringifyJson v).length = (encJson v).length := rfl
  rw [parseJson, hdata, hlen, hmain]
  rfl

/-!
Storage adapter lemmas.
-/

theorem lookupAssoc_setAssoc (m : KVMap) (k v : String) :
    lookupAssoc (setAssoc m k v) k = some v := by
  induction m with
  | nil => simp [setAssoc, lookupAssoc]
  | cons p rest ih =>
    obtain ⟨k1, v1⟩ := p
    by_cases hk : k1 = k
    · simp [setAssoc, hk, lookupAssoc]
    · simp [setAssoc, hk, lookupAssoc, ih]

theorem lookupAssoc_delAssoc (m : KVMap) (k : String) :
    lookupAssoc (delAssoc m k) k = none := by
  induction m with
  | nil => rfl
  | cons p rest ih =>
    obtain ⟨k1, v1⟩ := p
    by_cases hk : k1 = k
    · have hstep : delAssoc ((k1, v1) :: rest) k = delAssoc rest k := by
        simp [delAssoc, List.filter_cons, hk]
      rw [hstep]
      exact ih
    · have hstep : delAssoc ((k1, v1) :: rest) k = (k1, v1) :: delAssoc rest k := by
        simp [delAssoc, List.filter_cons, hk]
      rw [hstep]
      simp [lookupAssoc, hk, ih]

/-- After a successful `set`, `get` on the same key returns the parse of
the serialized value, in every availability mode. -/
theorem Storage.get_set (st : ScopeStore) (k : String) (v : Json) (hk : k ≠ "") :
    Storage.get (Storage.set st k v).2 k = safeParse (safeStringify v) := by
  cases hm : st.mode <;>
    simp [Storage.set, Storage.get, hk, hm, trySetItem, tryGetItem,
      lookupAssoc_setAssoc]

/-- `set` succeeds for every non-empty key, in every availability mode. -/
theorem Storage.set_ok (st : ScopeStore) (k : String) (v : Json) (hk : k ≠ "") :
    (Storage.set st k v).1 = true := by
  cases hm : st.mode <;> simp [Storage.set, hk, trySetItem, hm]

/-- `set` never changes the availability mode. -/
theorem Storage.set_mode (st : ScopeStore) (k : String) (v : Json) :
    (Storage.set st k v).2.mode = st.mode := by
  by_cases hk : k = "" <;> cases hm : st.mode <;>
    simp [Storage.set, hk, trySetItem, hm]

/-- `safeParse` of `safeStringify` recovers every non-string value, and
recovers a string value exactly when the string is not a JSON text. -/
theorem safeParse_safeStringify (v : Json) (hstr : ∀ s, v ≠ Json.jstr s) :
    safeParse (safeStringify v) = v := by
  have hss : safeStringify v = stringifyJson v := by
    cases v with
    | jstr s => exact absurd rfl (hstr s)
    | jnull => rfl
    | jbool b => rfl
    | jnum n => rfl
    | jdec m e => rfl
    | jarr xs => rfl
    | jobj kvs => rfl
  rw [hss, safeParse, parseJson_stringifyJson]

/-- `remove` leaves `has` false on the removed key, in every mode. -/
theorem Storage.has_remove (st : ScopeStore) (k : String) (hk : k ≠ "") :
    Storage.has (Storage.remove st k).2 k = false := by
  cases hm : st.mode <;>
    simp [Storage.remove, Storage.has, hk, hm, tryRemoveItem, tryGetItem,
      lookupAssoc_delAssoc]

/-!
Validation engine lemmas and claims C3, C4.
-/

theorem stringLength_eq_zero (s : String) (h : s.length = 0) : s = "" := by
  have hd : s.data = [] := List.length_eq_zero.mp h
  rw [← stringMk_data s, hd]

theorem validateFieldB_empty_required (rules : List VRule)
    (h : hasRequiredRule rules = true) :
    validateFieldB rules "" = false := by
  rw [hasRequiredRule, List.any_eq_true] at h
  obtain ⟨r, hr, hmatch⟩ := h
  have hreq : r = VRule.required := by
    cases r with
    | required => rfl
    | minLength n => exact absurd hmatch (by simp)
    | maxLength n => exact absurd hmatch (by simp)
  subst hreq
  cases hb : validateFieldB rules "" with
  | false => rfl
  | true =>
    exfalso
    rw [validateFieldB, List.all_eq_true] at hb
    have := hb _ hr
    exact absurd this (by decide)

theorem jsRound_ratio_lt_100 (v r : Nat) (hvr : v < r) (hr : r ≤ 199) :
    jsRound ((v : ℚ) / (r : ℚ) * 100) < 100 := by
  have hr0 : (0 : ℚ) < (r : ℚ) := by
    have : 0 < r := by omega
    exact_mod_cast this
  rw [jsRound, Int.floor_lt]
  push_cast
  have h1 : (v : ℚ) / (r : ℚ) * 100 < 199 / 2 := by
    rw [div_mul_eq_mul_div, div_lt_iff₀ hr0]
    have hv1 : (v : ℚ) + 1 ≤ (r : ℚ) := by exact_mod_cast hvr
    have hr199 : (r : ℚ) ≤ 199 := by exact_mod_cast hr
    nlinarith
  linarith

set_option maxRecDepth 10000 in
/-- C3 counterexample: in a form with 201 required fields where exactly
one required field is empty (and correctly marked invalid), the computed
completion percentage is 100, not less than 100 as the claim states. -/
theorem c3_counterexample :
    c3Fields.all (fun f => f.isValid == validateFieldB f.rules f.value) = true
    ∧ (requiredFieldsOf c3Fields).length = 201
    ∧ (⟨[VRule.required], "", false⟩ : FieldSt) ∈ c3Fields
    ∧ formCompletion c3Fields = 100 := by
  refine ⟨by decide, by decide, by decide, ?_⟩
  have hr : (requiredFieldsOf c3Fields).length = 201 := by decide
  have hv : (validRequiredOf c3Fields).length = 200 := by decide
  simp only [formCompletion, hr, hv]
  norm_num
  rw [jsRound, Int.floor_eq_iff]
  constructor
  · push_cast
    norm_num
  · push_cast
    norm_num

/-- C3 (amended): the completion percentage equals the number of valid
required fields over the total required fields, rounded (100 with no
required fields); while any required field is left empty the submit
control is disabled, and the completion percentage is below 100 whenever
the form has at most 199 required fields (with 200 or more, rounding can
reach 100 while a required field is still empty, as the counterexample
shows). -/
theorem c3_amended (fields : List FieldSt)
    (hcoh : ∀ f ∈ fields, f.isValid = validateFieldB f.rules f.value) :
    formCompletion fields
        = specCompletionPct (validRequiredOf fields).length (requiredFieldsOf fields).length
    ∧ ((requiredFieldsOf fields).length = 0 → formCompletion fields = 100)
    ∧ ((∃ f ∈ fields, hasRequiredRule f.rules = true ∧ f.value = "") →
        submitDisabled fields = true
        ∧ ((requiredFieldsOf fields).length ≤ 199 → formCompletion fields < 100)) := by
  refine ⟨?_, ?_, ?_⟩
  · by_cases h : (requiredFieldsOf fields).length = 0
    · simp [formCompletion, specCompletionPct, h]
    · have hpos : 0 < (requiredFieldsOf fields).length := Nat.pos_of_ne_zero h
      simp [formCompletion, specCompletionPct, h, hpos]
  · intro h
    simp [formCompletion, h]
  · intro hex
    obtain ⟨f, hf, hreq, hval⟩ := hex
    have hinv : f.isValid = false := by
      rw [hcoh f hf, hval]
      exact validateFieldB_empty_required f.rules hreq
    have hfreq : f ∈ requiredFieldsOf fields := List.mem_filter.mpr ⟨hf, hreq⟩
    have hdis : formIsValidB fields = false := by
      cases hb : formIsValidB fields with
      | false => rfl
      | true =>
        exfalso
        rw [formIsValidB, List.all_eq_true] at hb
        have := hb f hfreq
        rw [hinv] at this
        exact Bool.false_ne_true this
    refine ⟨by rw [submitDisabled, hdis]; rfl, ?_⟩
    intro h199
    have hlt : (validRequiredOf fields).length < (requiredFieldsOf fields).length := by
      rw [validRequiredOf]
      rw [List.length_filter_lt_length_iff_exists]
      exact ⟨f, hfreq, by rw [hinv]; exact Bool.false_ne_true⟩
    have hpos : 0 < (requiredFieldsOf fields).length := by omega
    simp only [formCompletion, if_pos hpos]
    exact jsRound_ratio_lt_100 _ _ hlt h199

/-- Witness for C3 (amended): a single empty required field disables
submit and keeps the completion percentage below 100. -/
theorem c3_amended_witness :
    submitDisabled [(⟨[VRule.required], "", false⟩ : FieldSt)] = true
    ∧ formCompletion [(⟨[VRule.required], "", false⟩ : FieldSt)] < 100 := by
  have h := (c3_amended [⟨[VRule.required], "", false⟩] (by decide)).2.2
    ⟨⟨[VRule.required], "", false⟩, by decide, by decide, rfl⟩
  exact ⟨h.1, h.2 (by decide)⟩

theorem minLength_mem_extract (a : FieldAttrs) (L : Nat) (h : a.minlengthAttr = some L) :
    VRule.minLength L ∈ extractValidationRules a := by
  obtain ⟨req, minA, maxA⟩ := a
  cases req <;> simp_all [extractValidationRules]

/-- C4 counterexample: for a configured minimum length of 1, the empty
value has length 0 = L − 1 yet passes validation (the minimum-length
validator treats the falsy empty value as valid). -/
theorem c4_counterexample :
    ("" : String).length = 0
    ∧ validateFieldB (extractValidationRules ⟨false, some 1, none⟩) "" = true := by
  exact ⟨rfl, by decide⟩

/-- C4 (amended): for a field whose attributes configure minimum length
L, and a value with no surrounding whitespace: a non-empty value of
length L − 1 fails validation, and a value of length L passes the
minimum-length rule.  (The empty value is exempt: it passes the rule, as
the counterexample shows, and lengths are compared after trimming.) -/
theorem c4_amended (a : FieldAttrs) (L : Nat) (hmin : a.minlengthAttr = some L)
    (s : String) (htrim : jsTrim s = s) :
    (s ≠ "" → s.length = L - 1 → validateFieldB (extractValidationRules a) s = false)
    ∧ (s.length = L → ruleOk (VRule.minLength L) s = true) := by
  constructor
  · intro hne hlen
    have hL2 : 2 ≤ L := by
      by_contra hc
      have hL1 : L - 1 = 0 := by omega
      rw [hL1] at hlen
      exact hne (stringLength_eq_zero s hlen)
    have hne2 : (s == "") = false := by
      rw [beq_eq_false_iff_ne]
      exact hne
    have hfalse : ruleOk (VRule.minLength L) s = false := by
      simp only [ruleOk, hne2, Bool.false_eq_true, if_false, htrim, hlen]
      simp only [decide_eq_false_iff_not]
      omega
    cases hb : validateFieldB (extractValidationRules a) s with
    | false => rfl
    | true =>
      exfalso
      rw [validateFieldB, List.all_eq_true] at hb
      have := hb _ (minLength_mem_extract a L hmin)
      rw [hfalse] at this
      exact Bool.false_ne_true this
  · intro hlen
    by_cases hse : s = ""
    · subst hse
      simp [ruleOk]
    · have hne2 : (s == "") = false := by
        rw [beq_eq_false_iff_ne]
        exact hse
      simp [ruleOk, hne2, htrim, hlen]

/-- Witness for C4 (amended) at L = 3: `"ab"` fails validation and
`"abc"` passes the minimum-length rule. -/
theorem c4_amended_witness :
    validateFieldB (extractValidationRules ⟨false, some 3, none⟩) "ab" = false
    ∧ ruleOk (VRule.minLength 3) "abc" = true :=
  ⟨(c4_amended ⟨false, some 3, none⟩ 3 rfl "ab" (by decide)).1 (by decide) (by decide),
   (c4_amended ⟨false, some 3, none⟩ 3 rfl "abc" (by decide)).2 (by decide)⟩

/-!
Form/step controller claims C5 and C10.
-/

theorem saveStepData_currentStep (domFields : KVMap) (st : FormState) :
    (saveStepData domFields st).currentStep = st.currentStep := rfl

theorem saveStepData_totalSteps (domFields : KVMap) (st : FormState) :
    (saveStepData domFields st).totalSteps = st.totalSteps := rfl

theorem showStep_currentStep (st : FormState) (n : Int) :
    (showStep st n).currentStep = if n < 1 ∨ n > st.totalSteps then st.currentStep else n := by
  by_cases h : n < 1 ∨ n > st.totalSteps <;> simp [showStep, h]

theorem showStep_totalSteps (st : FormState) (n : Int) :
    (showStep st n).totalSteps = st.totalSteps := by
  by_cases h : n < 1 ∨ n > st.totalSteps <;> simp [showStep, h]

/-- C5: the step-indicator jump transition is gated on the indicator's
`completed` marking, which `updateStepIndicators` gives exactly to the
steps strictly below the current one, so the highest completed step is
`currentStep − 1`: a jump to any step ahead of it leaves the state
unchanged; when the jump does change the current step, the target is at
most the highest completed step (and any in-range such target is
reached). -/
theorem c5_jump_gated (domFields : KVMap) (st : FormState) (j : Int)
    (hinv : 1 ≤ st.currentStep ∧ st.currentStep ≤ st.totalSteps) :
    (highestCompletedStep st < j → jumpToStep domFields st j = st)
    ∧ ((jumpToStep domFields st j).currentStep ≠ st.currentStep →
        (jumpToStep domFields st j).currentStep ≤ highestCompletedStep st)
    ∧ (1 ≤ j → j ≤ highestCompletedStep st →
        (jumpToStep domFields st j).currentStep = j) := by
  refine ⟨?_, ?_, ?_⟩
  · intro hahead
    have hgate : stepIndicatorCompleted st j = false := by
      rw [stepIndicatorCompleted]
      rw [highestCompletedStep] at hahead
      simp
      omega
    simp [jumpToStep, hgate]
  · intro hchanged
    by_cases hgate : stepIndicatorCompleted st j = true
    · have hj : j < st.currentStep := by
        rw [stepIndicatorCompleted] at hgate
        simpa using hgate
      rw [highestCompletedStep]
      by_cases hrange : 1 ≤ j ∧ j ≤ st.totalSteps
      · have : (jumpToStep domFields st j).currentStep = j := by
          simp [jumpToStep, hgate, goToStep, hrange, showStep_currentStep,
            saveStepData_totalSteps, saveStepData_currentStep]
        omega
      · have : jumpToStep domFields st j = st := by
          simp [jumpToStep, hgate, goToStep, hrange]
        rw [this] at hchanged
        exact absurd rfl hchanged
    · have hgate2 : stepIndicatorCompleted st j = false := by
        cases h : stepIndicatorCompleted st j
        · rfl
        · exact absurd h hgate
      have : jumpToStep domFields st j = st := by simp [jumpToStep, hgate2]
      rw [this] at hchanged
      exact absurd rfl hchanged
  · intro h1 h2
    rw [highestCompletedStep] at h2
    have hgate : stepIndicatorCompleted st j = true := by
      rw [stepIndicatorCompleted]
      simp
      omega
    have hrange : 1 ≤ j ∧ j ≤ st.totalSteps := by omega
    simp [jumpToStep, hgate, goToStep, hrange, showStep_currentStep,
      saveStepData_totalSteps, saveStepData_currentStep]

/-- Witness for C5: from step 2 of 4 with step 1 completed, jumping to
step 4 (ahead of the highest completed step) leaves the state unchanged,
and jumping to step 1 reaches it. -/
theorem c5_jump_gated_witness :
    jumpToStep [] ⟨2, 4, [], none⟩ 4 = ⟨2, 4, [], none⟩
    ∧ (jumpToStep [] ⟨2, 4, [], none⟩ 1).currentStep = 1 :=
  ⟨(c5_jump_gated [] ⟨2, 4, [], none⟩ 4 (by constructor <;> decide)).1 (by decide),
   (c5_jump_gated [] ⟨2, 4, [], none⟩ 1 (by constructor <;> decide)).2.2 (by decide) (by decide)⟩

/-- C10: `showStep` ignores any step number outside `[1, totalSteps]`,
leaving the state unchanged; starting from a state whose step is in
range, every step-changing operation (`showStep`, next, prev, `goToStep`,
the indicator jump, restoring a draft or autosave snapshot with an
arbitrary — possibly out-of-range — saved step, and the reset to step 1)
keeps the current step within `[1, totalSteps]`, and the initial state at
step 1 is in range. -/
theorem c10_step_in_range (st : FormState) (h : stepInRange st) :
    (∀ n, n < 1 ∨ n > st.totalSteps → showStep st n = st)
    ∧ (∀ n, stepInRange (showStep st n))
    ∧ (∀ domFields ok, stepInRange (handleNextStep domFields ok st))
    ∧ (∀ domFields, stepInRange (handlePrevStep domFields st))
    ∧ (∀ domFields n, stepInRange (goToStep domFields st n))
    ∧ (∀ domFields n, stepInRange (jumpToStep domFields st n))
    ∧ (∀ saved, stepInRange (loadAutoSaveStep saved st))
    ∧ (∀ drafts draftId, stepInRange (loadDraftStep drafts draftId st))
    ∧ stepInRange (clearFormData st)
    ∧ (∀ total : Int, 1 ≤ total → stepInRange (initialFormState total)) := by
  obtain ⟨h1, h2⟩ := h
  have hshow : ∀ st2 : FormState, stepInRange st2 → ∀ n, stepInRange (showStep st2 n) := by
    intro st2 hst2 n
    obtain ⟨ha, hb⟩ := hst2
    rw [stepInRange, showStep_currentStep, showStep_totalSteps]
    by_cases hn : n < 1 ∨ n > st2.totalSteps <;> simp [hn] <;> omega
  refine ⟨?_, hshow st ⟨h1, h2⟩, ?_, ?_, ?_, ?_, ?_, ?_, ?_, ?_⟩
  · intro n hn
    simp [showStep, hn]
  · intro domFields ok
    rw [handleNextStep]
    by_cases hok : ok
    · simp only [hok, Bool.not_true, Bool.false_eq_true, if_false]
      by_cases hlt : (saveStepData domFields st).currentStep < (saveStepData domFields st).totalSteps
      · simp only [hlt, if_true]
        exact hshow _ ⟨by rw [saveStepData_currentStep]; exact h1,
          by rw [saveStepData_currentStep, saveStepData_totalSteps]; exact h2⟩ _
      · simp only [hlt, if_false]
        exact ⟨by rw [saveStepData_currentStep]; exact h1,
          by rw [saveStepData_currentStep, saveStepData_totalSteps]; exact h2⟩
    · simp only [Bool.not_eq_true'] at hok
      simp only [hok, Bool.not_false, if_true]
      exact ⟨h1, h2⟩
  · intro domFields
    rw [handlePrevStep]
    by_cases hgt : (saveStepData domFields st).currentStep > 1
    · simp only [hgt, if_true]
      exact hshow _ ⟨by rw [saveStepData_currentStep]; exact h1,
        by rw [saveStepData_currentStep, saveStepData_totalSteps]; exact h2⟩ _
    · simp only [hgt, if_false]
      exact ⟨by rw [saveStepData_currentStep]; exact h1,
        by rw [saveStepData_currentStep, saveStepData_totalSteps]; exact h2⟩
  · intro domFields n
    rw [goToStep]
    by_cases hn : 1 ≤ n ∧ n ≤ st.totalSteps
    · simp only [hn, and_self, if_true]
      exact hshow _ ⟨by rw [saveStepData_currentStep]; exact h1,
        by rw [saveStepData_currentStep, saveStepData_totalSteps]; exact h2⟩ _
    · simp only [hn, if_false]
      exact ⟨h1, h2⟩
  · intro domFields n
    rw [jumpToStep]
    by_cases hgate : stepIndicatorCompleted st n = true
    · simp only [hgate, if_true]
      rw [goToStep]
      by_cases hn : 1 ≤ n ∧ n ≤ st.totalSteps
      · simp only [hn, and_self, if_true]
        exact hshow _ ⟨by rw [saveStepData_currentStep]; exact h1,
          by rw [saveStepData_currentStep, saveStepData_totalSteps]; exact h2⟩ _
      · simp only [hn, if_false]
        exact ⟨h1, h2⟩
    · simp only [Bool.not_eq_true] at hgate
      simp only [hgate, Bool.false_eq_true, if_false]
      exact ⟨h1, h2⟩
  · intro saved
    by_cases hz : saved.currentStep ≠ 0
    · have hred : loadAutoSaveStep saved st
          = showStep { st with formData := saved.formData, currentDraftId := saved.draftId }
              saved.currentStep := by
        simp only [loadAutoSaveStep, if_pos hz]
      rw [hred]
      exact hshow { st with formData := saved.formData, currentDraftId := saved.draftId }
        ⟨h1, h2⟩ _
    · have hred : loadAutoSaveStep saved st
          = { st with formData := saved.formData, currentDraftId := saved.draftId } := by
        simp only [loadAutoSaveStep, if_neg hz]
      rw [hred]
      exact ⟨h1, h2⟩
  · intro drafts draftId
    cases hfind : drafts.find? (fun d => d.id == draftId) with
    | some draft =>
      have hred : loadDraftStep drafts draftId st
          = showStep { st with formData := draft.formData, currentDraftId := some draft.id }
              (if draft.currentStep = 0 then 1 else draft.currentStep) := by
        simp only [loadDraftStep, hfind]
      rw [hred]
      exact hshow { st with formData := draft.formData, currentDraftId := some draft.id }
        ⟨h1, h2⟩ _
    | none =>
      have hred : loadDraftStep drafts draftId st = st := by
        simp only [loadDraftStep, hfind]
      rw [hred]
      exact ⟨h1, h2⟩
  · exact ⟨by simp [clearFormData], by simp [clearFormData]; omega⟩
  · intro total htot
    exact ⟨le_refl 1, htot⟩

/-!
Submission-flow claims C6 and C7.
-/

theorem isPrefixOf_false_of_not_mem (c : Char) (cs s : List Char) (h : c ∉ s) :
    (c :: cs).isPrefixOf s = false := by
  induction s with
  | nil => rfl
  | cons a t ih =>
    simp only [List.isPrefixOf]
    have hca : (c == a) = false := by
      rw [beq_eq_false_iff_ne]
      intro he
      exact h (he ▸ List.mem_cons_self a t)
    simp [hca]

theorem containsSub_false_of_not_mem (c : Char) (cs s : List Char) (h : c ∉ s) :
    containsSub s (c :: cs) = false := by
  induction s with
  | nil => rfl
  | cons a t ih =>
    rw [containsSub]
    have hpre := isPrefixOf_false_of_not_mem c cs (a :: t) h
    have ht : c ∉ t := fun hc => h (List.mem_cons_of_mem a hc)
    simp [hpre, ih ht]

theorem strIncludes_fetch_false (s : String) (h : 'f' ∉ s.data) :
    strIncludes s "fetch" = false := by
  rw [strIncludes]
  exact containsSub_false_of_not_mem 'f' _ s.data h

theorem f_not_in_http_error (status : Nat) :
    'f' ∉ ("HTTP error! status: " ++ String.mk (natDigits status)).data := by
  intro hmem
  rw [String.data_append] at hmem
  rcases List.mem_append.mp hmem with hm | hm
  · exact absurd hm (by decide)
  · have hdig : ('f' : Char).isDigit = true := natDigits_all_digit status 'f' hm
    exact absurd hdig (by decide)

/-- C6 counterexample: on a fetch-level network error (`TypeError`), the
controller does not surface an error and does not leave state intact;
the demo fallback simulates a submission, and when the simulated result
is a success the collected data is cleared and a redirect is scheduled. -/
theorem c6_counterexample :
    (handleSubmit false true
        ⟨⟨3, 4, [("name", "Alice")], none⟩,
          ⟨NativeMode.working, [(autoSaveCurrentKey, "x")], []⟩, []⟩
        (FetchOutcome.netError ⟨"TypeError", "Failed to fetch"⟩) true
        "RARE-202501-0042").2.errorShown = none
    ∧ (handleSubmit false true
        ⟨⟨3, 4, [("name", "Alice")], none⟩,
          ⟨NativeMode.working, [(autoSaveCurrentKey, "x")], []⟩, []⟩
        (FetchOutcome.netError ⟨"TypeError", "Failed to fetch"⟩) true
        "RARE-202501-0042").1.form.formData = []
    ∧ (handleSubmit false true
        ⟨⟨3, 4, [("name", "Alice")], none⟩,
          ⟨NativeMode.working, [(autoSaveCurrentKey, "x")], []⟩, []⟩
        (FetchOutcome.netError ⟨"TypeError", "Failed to fetch"⟩) true
        "RARE-202501-0042").2.redirectTo = some "success.html" :=
  ⟨rfl, rfl, rfl⟩

/-- C6 (amended): for every failing submission attempt other than a
fetch-level network error — a response body without a success indication,
an HTTP error response, the timeout abort, or any other rethrown error —
the controller surfaces an error message, leaves the whole collected
state (form data, step, storage, session) intact for a manual retry,
schedules no redirect, and issues exactly one fetch with no automatic
retry.  (A fetch-level network error instead triggers the demo
`simulateSubmission` fallback, whose result is handled as if real, as
the counterexample shows.) -/
theorem c6_amended (ctx : SubmitCtx) (fetched : FetchOutcome) (simOk : Bool) (simRef : String)
    (conf : Bool) (h : failsNoFallback fetched = true) :
    (handleSubmit conf true ctx fetched simOk simRef).1 = ctx
    ∧ ((handleSubmit conf true ctx fetched simOk simRef).2.errorShown).isSome = true
    ∧ (handleSubmit conf true ctx fetched simOk simRef).2.redirectTo = none
    ∧ (handleSubmit conf true ctx fetched simOk simRef).2.fetchAttempts = 1 := by
  cases fetched with
  | ok resp =>
    have hsucc : resp.success = false := by
      simpa [failsNoFallback] using h
    simp [handleSubmit, submitFormModel, hsucc, handleSubmitError]
  | httpNotOk status =>
    have hinc : strIncludes ("HTTP error! status: " ++ String.mk (natDigits status)) "fetch"
        = false := strIncludes_fetch_false _ (f_not_in_http_error status)
    simp [handleSubmit, submitFormModel, hinc, handleSubmitError]
  | timedOut =>
    have hinc : strIncludes "The operation was aborted." "fetch" = false := by decide
    simp [handleSubmit, submitFormModel, hinc, handleSubmitError, abortErrorMessage]
  | netError e =>
    have hcond : (e.name == "TypeError" || strIncludes e.message "fetch") = false := by
      simpa [failsNoFallback] using h
    simp [handleSubmit, submitFormModel, hcond, handleSubmitError]

/-- Witness for C6 (amended): a timeout leaves the context unchanged. -/
theorem c6_amended_witness :
    (handleSubmit false true
        ⟨⟨2, 4, [("a", "b")], none⟩, ⟨NativeMode.working, [], []⟩, []⟩
        FetchOutcome.timedOut true "R").1
      = ⟨⟨2, 4, [("a", "b")], none⟩, ⟨NativeMode.working, [], []⟩, []⟩ :=
  (c6_amended ⟨⟨2, 4, [("a", "b")], none⟩, ⟨NativeMode.working, [], []⟩, []⟩
    FetchOutcome.timedOut true "R" false (by decide)).1

/-- C7: on a submission response with a success indication and a
reference number, the controller removes the autosave entry from
storage, clears the in-memory aggregate (resetting the current step to 1
and forgetting the draft id), stores the reference under the
submission-reference key in session-scoped storage, schedules the
redirect to the confirmation page, and shows no error. -/
theorem c7_submit_success (conf : Bool) (ctx : SubmitCtx) (resp : SubmitResponse)
    (simOk : Bool) (simRef : String) (ref : String)
    (hs : resp.success = true) (href : resp.referenceNumber = some ref) :
    Storage.has (handleSubmit conf true ctx (FetchOutcome.ok resp) simOk simRef).1.store
        autoSaveCurrentKey = false
    ∧ (handleSubmit conf true ctx (FetchOutcome.ok resp) simOk simRef).1.form.formData = []
    ∧ (handleSubmit conf true ctx (FetchOutcome.ok resp) simOk simRef).1.form.currentStep = 1
    ∧ (handleSubmit conf true ctx (FetchOutcome.ok resp) simOk simRef).1.form.currentDraftId
        = none
    ∧ lookupAssoc
        (handleSubmit conf true ctx (FetchOutcome.ok resp) simOk simRef).1.sessionNative
        submissionRefKey = some ref
    ∧ (handleSubmit conf true ctx (FetchOutcome.ok resp) simOk simRef).2.redirectTo
        = some successRedirect
    ∧ (handleSubmit conf true ctx (FetchOutcome.ok resp) simOk simRef).2.errorShown = none := by
  obtain ⟨s, rn, msg, em⟩ := resp
  simp only at hs href
  subst hs
  subst href
  have hkey : autoSaveCurrentKey ≠ "" := by decide
  simp [handleSubmit, submitFormModel, handleSubmitSuccess, clearAutoSave, clearFormData,
    lookupAssoc_setAssoc, Storage.has_remove _ _ hkey]

/-- Witness for C7 matching the specification scenario: the endpoint
returns success with reference `RARE-202501-0042`; the session reference
equals it and the redirect to the confirmation page is scheduled. -/
theorem c7_submit_success_witness :
    lookupAssoc
        (handleSubmit true true
          ⟨⟨4, 4, [("a", "b")], some "d1"⟩,
            ⟨NativeMode.working, [(autoSaveCurrentKey, "x")], []⟩, []⟩
          (FetchOutcome.ok ⟨true, some "RARE-202501-0042", none, none⟩) true "R").1.sessionNative
        submissionRefKey
      = some "RARE-202501-0042"
    ∧ (handleSubmit true true
          ⟨⟨4, 4, [("a", "b")], some "d1"⟩,
            ⟨NativeMode.working, [(autoSaveCurrentKey, "x")], []⟩, []⟩
          (FetchOutcome.ok ⟨true, some "RARE-202501-0042", none, none⟩) true "R").2.redirectTo
      = some successRedirect := by
  have h := c7_submit_success true
    ⟨⟨4, 4, [("a", "b")], some "d1"⟩, ⟨NativeMode.working, [(autoSaveCurrentKey, "x")], []⟩, []⟩
    ⟨true, some "RARE-202501-0042", none, none⟩ true "R" "RARE-202501-0042" rfl rfl
  exact ⟨h.2.2.2.2.1, h.2.2.2.2.2.1⟩

/-!
Draft-cap claim C8.
-/

theorem take_append_take {α : Type} (A l : List α) (n : Nat) :
    (A ++ l.take n).take n = (A ++ l).take n := by
  rw [List.take_append_eq_append_take, List.take_append_eq_append_take, List.take_take]
  congr 1
  rw [min_eq_left (by omega)]

theorem storedDrafts_set (store : ScopeStore) (ds : List Json) :
    storedDrafts (Storage.set store draftsKey (Json.jarr ds)).2 = some ds := by
  rw [storedDrafts, Storage.get_set _ _ _ (by decide : draftsKey ≠ "")]
  rw [safeParse_safeStringify _ (fun s h => Json.noConfusion h)]
  rfl

theorem saveDraft_step (store : ScopeStore) (d : Draft) (ds : List Json)
    (hstored : storedDrafts store = some ds) (hlen : ds.length ≤ maxDrafts) :
    ∃ store1, saveDraft store d = some store1
      ∧ storedDrafts store1 = some ((encodeDraft d :: ds).take maxDrafts) := by
  rw [storedDrafts] at hstored
  have htake : (if (encodeDraft d :: ds).length > maxDrafts
        then (encodeDraft d :: ds).dropLast
        else encodeDraft d :: ds)
      = (encodeDraft d :: ds).take maxDrafts := by
    by_cases hgt : (encodeDraft d :: ds).length > maxDrafts
    · have h6 : (encodeDraft d :: ds).length = maxDrafts + 1 := by
        simp only [List.length_cons] at hgt ⊢
        rw [maxDrafts] at hgt hlen ⊢
        omega
      rw [if_pos hgt, List.dropLast_eq_take, h6]
      simp
    · rw [if_neg hgt]
      rw [List.take_of_length_le (by simp only [List.length_cons] at hgt ⊢; omega)]
  refine ⟨(Storage.set store draftsKey
      (Json.jarr ((encodeDraft d :: ds).take maxDrafts))).2, ?_, ?_⟩
  · rw [saveDraft, hstored]
    simp only [htake]
  · exact storedDrafts_set _ _

theorem saveDrafts_spec (seq : List Draft) :
    ∀ store ds, storedDrafts store = some ds → ds.length ≤ maxDrafts →
      ∃ store2, saveDrafts store seq = some store2
        ∧ storedDrafts store2 = some (((seq.map encodeDraft).reverse ++ ds).take maxDrafts) := by
  induction seq with
  | nil =>
    intro store ds h hl
    refine ⟨store, rfl, ?_⟩
    rw [h]
    congr 1
    rw [List.map_nil, List.reverse_nil, List.nil_append,
      List.take_of_length_le hl]
  | cons d rest ih =>
    intro store ds h hl
    obtain ⟨store1, hs1, hst1⟩ := saveDraft_step store d ds h hl
    have hlen1 : ((encodeDraft d :: ds).take maxDrafts).length ≤ maxDrafts := by
      simp [List.length_take]
    obtain ⟨store2, hs2, hst2⟩ := ih store1 _ hst1 hlen1
    refine ⟨store2, ?_, ?_⟩
    · rw [saveDrafts, List.foldl_cons]
      show (rest.foldl (fun acc d2 => acc.bind (fun s => saveDraft s d2))
        ((some store).bind (fun s => saveDraft s d))) = some store2
      rw [Option.some_bind, hs1]
      exact hs2
    · rw [hst2]
      congr 1
      rw [take_append_take]
      congr 1
      simp [List.append_assoc]

/-- C8: the stored draft list never exceeds `CONFIG.maxDrafts`: starting
from any store whose draft list is within the cap, one `saveDraft`
prepends the new draft and, when the list would exceed the cap, drops
its last (oldest) entry; saving any sequence of drafts keeps the list
within the cap and retains exactly the most recent `maxDrafts` drafts,
most recent first, oldest dropped first. -/
theorem c8_draft_cap (store : ScopeStore) (ds : List Json) (seq : List Draft)
    (hstored : storedDrafts store = some ds) (hlen : ds.length ≤ maxDrafts) :
    (∀ d, ∃ store1, saveDraft store d = some store1
        ∧ storedDrafts store1 = some ((encodeDraft d :: ds).take maxDrafts))
    ∧ (saveDrafts store seq).isSome = true
    ∧ (∀ store2, saveDrafts store seq = some store2 →
        storedDrafts store2 = some (((seq.map encodeDraft).reverse ++ ds).take maxDrafts)
        ∧ (∀ es, storedDrafts store2 = some es → es.length ≤ maxDrafts)) := by
  obtain ⟨store2, hs2, hst2⟩ := saveDrafts_spec seq store ds hstored hlen
  refine ⟨fun d => saveDraft_step store d ds hstored hlen, ?_, ?_⟩
  · rw [hs2]
    rfl
  · intro store3 hs3
    rw [hs2] at hs3
    have heq : store3 = store2 := (Option.some_inj.mp hs3).symm
    subst heq
    refine ⟨hst2, ?_⟩
    intro es hes
    rw [hst2] at hes
    have : es = ((seq.map encodeDraft).reverse ++ ds).take maxDrafts :=
      (Option.some_inj.mp hes).symm
    subst this
    simp [List.length_take]

/-- Witness for C8: saving seven drafts into an empty store succeeds
(and by the theorem retains only the five most recent). -/
theorem c8_draft_cap_witness :
    (saveDrafts ⟨NativeMode.working, [], []⟩
        ((List.range 7).map (fun i => ⟨String.mk (natDigits i), "n", [], 1, "t"⟩))).isSome
      = true :=
  (c8_draft_cap ⟨NativeMode.working, [], []⟩ [] 
      ((List.range 7).map (fun i => ⟨String.mk (natDigits i), "n", [], 1, "t"⟩))
      rfl (by decide)).2.1

/-!
Submission endpoint stub: claim C9.
-/

theorem natDigitsAux_length_le (fuel : Nat) :
    ∀ n k, n < fuel → 1 ≤ k → n < 10 ^ k → (natDigitsAux fuel n).length ≤ k := by
  induction fuel with
  | zero => intro n k hn; omega
  | succ f ih =>
    intro n k hn hk hpow
    by_cases h10 : n < 10
    · simp [natDigitsAux, h10]
      omega
    · have hdiv : n / 10 < f := by
        have := Nat.div_lt_self (show 0 < n by omega) (show 1 < 10 by omega)
        omega
    
      obtain ⟨m, hm⟩ : ∃ m, k = m + 1 := ⟨k - 1, by omega⟩
      subst hm
      have hm1 : 1 ≤ m := by
        by_contra hc
        have : m = 0 := by omega
        subst this
        simp at hpow
        omega
      have hdivpow : n / 10 < 10 ^ m := by
        rw [Nat.div_lt_iff_lt_mul (by omega)]
        calc n < 10 ^ (m + 1) := hpow
        _ = 10 ^ m * 10 := by rw [pow_succ]
      have := ih (n / 10) m hdiv hm1 hdivpow
      simp only [natDigitsAux, if_neg h10, List.length_append, List.length_cons,
        List.length_nil]
      omega

theorem natDigitsAux_length_eq (fuel : Nat) :
    ∀ n k, n < fuel → 10 ^ k ≤ n → n < 10 ^ (k + 1) →
      (natDigitsAux fuel n).length = k + 1 := by
  induction fuel with
  | zero => intro n k hn; omega
  | succ f ih =>
    intro n k hn hlo hhi
    cases k with
    | zero =>
      have h10 : n < 10 := by simpa using hhi
      simp [natDigitsAux, h10]
    | succ m =>
      have h10 : ¬ n < 10 := by
        have : (10 : Nat) ^ 1 ≤ 10 ^ (m + 1) := Nat.pow_le_pow_right (by omega) (by omega)
        simp only [pow_one] at this
        omega
      have hdiv : n / 10 < f := by
        have := Nat.div_lt_self (show 0 < n by omega) (show 1 < 10 by omega)
        omega
      have hlo2 : 10 ^ m ≤ n / 10 := by
        rw [Nat.le_div_iff_mul_le (by omega)]
        calc 10 ^ m * 10 = 10 ^ (m + 1) := by rw [pow_succ]
        _ ≤ n := hlo
      have hhi2 : n / 10 < 10 ^ (m + 1) := by
        rw [Nat.div_lt_iff_lt_mul (by omega)]
        calc n < 10 ^ (m + 2) := hhi
        _ = 10 ^ (m + 1) * 10 := by rw [pow_succ]
      have := ih (n / 10) m hdiv hlo2 hhi2
      simp only [natDigitsAux, if_neg h10, List.length_append, List.length_cons,
        List.length_nil]
      omega

theorem natDigits_length_year (y : Nat) (h1 : 1000 ≤ y) (h2 : y ≤ 9999) :
    (natDigits y).length = 4 :=
  natDigitsAux_length_eq (y + 1) y 3 (by omega) (by norm_num; omega) (by norm_num; omega)

theorem natDigits_length_le_two (m : Nat) (h : m ≤ 99) : (natDigits m).length ≤ 2 :=
  natDigitsAux_length_le (m + 1) m 2 (by omega) (by omega) (by norm_num; omega)

theorem natDigits_length_le_four (m : Nat) (h : m ≤ 9999) : (natDigits m).length ≤ 4 :=
  natDigitsAux_length_le (m + 1) m 4 (by omega) (by omega) (by norm_num; omega)

theorem padStartZeros_length (cs : List Char) (w : Nat) (h : cs.length ≤ w) :
    (padStartZeros cs w).length = w := by
  simp [padStartZeros]
  omega

theorem padStartZeros_all_digit (cs : List Char) (w : Nat)
    (h : ∀ c ∈ cs, c.isDigit = true) :
    ∀ c ∈ padStartZeros cs w, c.isDigit = true := by
  intro c hc
  rw [padStartZeros] at hc
  rcases List.mem_append.mp hc with hm | hm
  · rw [List.eq_of_mem_replicate hm]
    decide
  · exact h c hm

/-- C9 counterexample: a POST labeled `application/json` whose body is
not valid JSON is answered with a 400 failure body, not with a success
indication as the claim states. -/
theorem c9_counterexample :
    (submitNominationHandler ⟨"POST", some "application/json", some "\x7b"⟩ 2025 1 42
        "boom").statusCode = 400
    ∧ (submitNominationHandler ⟨"POST", some "application/json", some "\x7b"⟩ 2025 1 42
        "boom").bodyJson
      = Json.jobj [("success", Json.jbool false), ("error", Json.jstr "boom")] :=
  ⟨rfl, rfl⟩

/-- C9 (amended): a non-POST request is answered 405 with a
method-not-allowed body; a POST whose body is not labeled JSON, or whose
(defaulted) body parses as JSON, is always answered 200 with `{success:
true}` and a reference of the shape `RARE-YYYYMM-NNNN` (digits only,
4-digit random suffix), independently of the payload — no validation is
performed; but a POST labeled `application/json` whose body fails to
parse is answered 400 with `{success: false}` and the parse error
message. -/
theorem c9_amended (e : NetlifyEvent) (year month rand : Nat) (msg : String)
    (hy1 : 1000 ≤ year) (hy2 : year ≤ 9999) (hm1 : 1 ≤ month) (hm2 : month ≤ 12)
    (hr : rand ≤ 9999) :
    (e.httpMethod ≠ "POST" →
      submitNominationHandler e year month rand msg
        = ⟨405, Json.jobj [("error", Json.jstr "Method Not Allowed")]⟩)
    ∧ (e.httpMethod = "POST" →
        strIncludes (match e.contentTypeHdr with | some ct => ct | none => "")
            "application/json" = false →
        submitNominationHandler e year month rand msg
          = ⟨200, Json.jobj [("success", Json.jbool true),
              ("referenceNumber", Json.jstr (referenceString year month rand))]⟩)
    ∧ (e.httpMethod = "POST" →
        (parseJson (effectiveBody e.body)).isSome = true →
        submitNominationHandler e year month rand msg
          = ⟨200, Json.jobj [("success", Json.jbool true),
              ("referenceNumber", Json.jstr (referenceString year month rand))]⟩)
    ∧ (e.httpMethod = "POST" →
        strIncludes (match e.contentTypeHdr with | some ct => ct | none => "")
            "application/json" = true →
        parseJson (effectiveBody e.body) = none →
        submitNominationHandler e year month rand msg
          = ⟨400, Json.jobj [("success", Json.jbool false), ("error", Json.jstr msg)]⟩)
    ∧ (∃ mid suf : List Char,
        (referenceString year month rand).data
          = ['R', 'A', 'R', 'E', '-'] ++ mid ++ '-' :: suf
        ∧ mid.length = 6 ∧ (∀ c ∈ mid, c.isDigit = true)
        ∧ suf.length = 4 ∧ (∀ c ∈ suf, c.isDigit = true)) := by
  refine ⟨?_, ?_, ?_, ?_, ?_⟩
  · intro h
    simp [submitNominationHandler, h]
  · intro hp hct
    simp [submitNominationHandler, hp, hct]
  · intro hp hparse
    by_cases hct : strIncludes (match e.contentTypeHdr with | some ct => ct | none => "")
        "application/json" = true
    · simp [submitNominationHandler, hp, hct, hparse]
    · simp only [Bool.not_eq_true] at hct
      simp [submitNominationHandler, hp, hct]
  · intro hp hct hparse
    simp [submitNominationHandler, hp, hct, hparse]
  · refine ⟨natDigits year ++ padStartZeros (natDigits month) 2,
      padStartZeros (natDigits rand) 4, ?_, ?_, ?_, ?_, ?_⟩
    · show referenceChars year month rand = _
      rw [referenceChars]
      simp
    · rw [List.length_append, natDigits_length_year year hy1 hy2,
        padStartZeros_length _ _ (natDigits_length_le_two month (by omega))]
    · intro c hc
      rcases List.mem_append.mp hc with hm | hm
      · exact natDigits_all_digit year c hm
      · exact padStartZeros_all_digit _ _ (natDigits_all_digit month) c hm
    · exact padStartZeros_length _ _ (natDigits_length_le_four rand (by omega))
    · exact padStartZeros_all_digit _ _ (natDigits_all_digit rand)

/-- Witness for C9 (amended): a POST without a JSON content type is
answered 200 with the generated reference. -/
theorem c9_amended_witness :
    submitNominationHandler ⟨"POST", none, none⟩ 2025 1 42 "m"
      = ⟨200, Json.jobj [("success", Json.jbool true),
          ("referenceNumber", Json.jstr (referenceString 2025 1 42))]⟩ :=
  (c9_amended ⟨"POST", none, none⟩ 2025 1 42 "m" (by decide) (by decide) (by decide)
      (by decide) (by decide)).2.1 rfl (by decide)

/-- Witness for C10: from the initial state of a 4-step form, an
out-of-range `showStep` request keeps the step in range. -/
theorem c10_step_in_range_witness :
    stepInRange (showStep ⟨1, 4, [], none⟩ 99) :=
  (c10_step_in_range ⟨1, 4, [], none⟩ ⟨by decide, by decide⟩).2.1 99

theorem getScope_putScope (st : StorageState) (b : Bool) (sc : ScopeStore) :
    getScope (putScope st b sc) b = sc := by
  cases b <;> simp [getScope, putScope]

/-- C1 counterexample: the claim promises that a primitive string value
is returned by `get` unchanged, but storing the string `"42"` stores the
raw text `42`, which `get` parses back as the number 42. -/
theorem c1_counterexample :
    Storage.getK
        (Storage.setK ⟨⟨NativeMode.working, [], []⟩, ⟨NativeMode.working, [], []⟩⟩ "k"
          (Json.jstr "42") false).2 "k" false = Json.jnum 42
    ∧ Json.jnum 42 ≠ Json.jstr "42" := by
  constructor
  · rfl
  · simp

/-- C1 (amended): after `set(key, value, scope)` succeeds, `get(key,
scope)` returns every non-string value exactly (the JSON round-trip); a
primitive string value comes back unchanged exactly when it is not
itself parseable as JSON, and otherwise comes back as the JSON decoding
of that string; and setting the same key/value twice leaves `get`
returning the same parsed value as after one `set`. -/
theorem c1_amended (st : StorageState) (isSession : Bool) (key : String) (v : Json)
    (hk : key ≠ "") :
    (Storage.setK st key v isSession).1 = true
    ∧ ((∀ s, v ≠ Json.jstr s) →
        Storage.getK (Storage.setK st key v isSession).2 key isSession = v)
    ∧ (∀ s, v = Json.jstr s → parseJson s = none →
        Storage.getK (Storage.setK st key v isSession).2 key isSession = Json.jstr s)
    ∧ (∀ s j, v = Json.jstr s → parseJson s = some j →
        Storage.getK (Storage.setK st key v isSession).2 key isSession = j)
    ∧ Storage.getK
        (Storage.setK (Storage.setK st key v isSession).2 key v isSession).2 key isSession
      = Storage.getK (Storage.setK st key v isSession).2 key isSession := by
  have hget : ∀ st2 : StorageState,
      Storage.getK (Storage.setK st2 key v isSession).2 key isSession
        = safeParse (safeStringify v) := by
    intro st2
    show Storage.get (getScope (putScope st2 isSession _) isSession) key = _
    rw [getScope_putScope]
    exact Storage.get_set _ key v hk
  refine ⟨Storage.set_ok _ key v hk, ?_, ?_, ?_, ?_⟩
  · intro hstr
    rw [hget st, safeParse_safeStringify v hstr]
  · intro s hv hp
    subst hv
    rw [hget st]
    simp [safeStringify, safeParse, hp]
  · intro s j hv hp
    subst hv
    rw [hget st]
    simp [safeStringify, safeParse, hp]
  · rw [hget st, hget (Storage.setK st key v isSession).2]

/-- Witness for C1 (amended): a structured draft value stored under a
non-empty key in the persistent scope round-trips exactly. -/
theorem c1_amended_witness :
    Storage.getK
        (Storage.setK ⟨⟨NativeMode.working, [], []⟩, ⟨NativeMode.working, [], []⟩⟩ "draft"
          (Json.jobj [("a", Json.jnum 1)]) false).2 "draft" false
      = Json.jobj [("a", Json.jnum 1)] :=
  (c1_amended ⟨⟨NativeMode.working, [], []⟩, ⟨NativeMode.working, [], []⟩⟩ false "draft"
      (Json.jobj [("a", Json.jnum 1)]) (by decide)).2.1
    (fun s h => Json.noConfusion h)

/-- C2: when the native storage scope is unavailable, or available but
every native call throws (`NativeMode.throwing`; every such throw is
caught by the adapter, whose operations are total functions), each public
operation still returns a defined result computed from the in-memory
fallback mapping alone: `set` succeeds and writes the fallback, `get`
reads it, `remove` and `clear` succeed on it, `has`/`keys` answer from
it, and `size` is independent of the native contents. -/
theorem c2_storage_fallback (st : ScopeStore) (hmode : st.mode ≠ NativeMode.working)
    (k : String) (v : Json) (hk : k ≠ "") :
    (Storage.set st k v).1 = true
    ∧ (Storage.set st k v).2.mem = setAssoc st.mem k (safeStringify v)
    ∧ Storage.get st k = (match lookupAssoc st.mem k with
        | some s => safeParse s
        | none => Json.jnull)
    ∧ (Storage.remove st k).1 = true
    ∧ (Storage.remove st k).2.mem = delAssoc st.mem k
    ∧ (Storage.clear st).1 = true
    ∧ (Storage.clear st).2.mem = []
    ∧ Storage.has st k = (lookupAssoc st.mem k).isSome
    ∧ Storage.keys st = st.mem.map Prod.fst
    ∧ Storage.size st = Storage.size { st with native := [] } := by
  have hm : st.mode = NativeMode.throwing ∨ st.mode = NativeMode.unavailable := by
    cases h : st.mode
    · exact absurd h hmode
    · exact Or.inl rfl
    · exact Or.inr rfl
  rcases hm with hm | hm <;>
  · refine ⟨?_, ?_, ?_, ?_, ?_, ?_, ?_, ?_, ?_, ?_⟩ <;>
      simp [Storage.set, Storage.get, Storage.remove, Storage.clear, Storage.has,
        Storage.keys, Storage.size, hk, hm, trySetItem, tryGetItem, tryRemoveItem,
        tryClearItems, tryNativeKeys]

/-- Witness for C2 at a throwing store with a populated fallback. -/
theorem c2_storage_fallback_witness :
    (Storage.set ⟨NativeMode.throwing, [("x", "1")], [("k", "null")]⟩ "k" (Json.jnum 2)).1 = true :=
  (c2_storage_fallback ⟨NativeMode.throwing, [("x", "1")], [("k", "null")]⟩ (by decide) "k"
    (Json.jnum 2) (by decide)).1
